import Mathlib

/-!
Verification of the layout-preserving Arabic→English PDF translation pipeline.

This file gives a shallow embedding, in Lean 4, of the core functions of the
repository (`translate_service.py`, `table_detection_service.py`,
`table_handler.py`, `arabic_utils.py`, `pdf_translation_service.py`) and
settles the specification claims about them.

Modelling conventions:
* Python `str` values are Lean `String`s; all string operations are
  implemented over `List Char` so that they are kernel-computable.
* Page coordinates (floats in the source) are modelled as exact rationals.
* Unicode character classes used by the source's regexes (`\d`, `\s`, `\w`,
  `str.isdigit`, `str.lower`) are modelled on the character ranges this
  pipeline can actually encounter: ASCII, the Arabic blocks U+0600–U+06FF,
  U+0750–U+077F, U+08A0–U+08FF, and the Arabic presentation forms
  U+FB50–U+FDFF, U+FE70–U+FEFF.  ASCII case mapping is used for `lower`.
* The external translation model (`model.generate` + decode) is an opaque
  total function `String → String`, one oracle per decoding configuration;
  exception paths guarded by `try/except` around it are consequently dead
  and are not modelled.
-/

/-! ## Character classes -/

/-- Membership in one of the Arabic blocks tested by
`arabic_utils.has_arabic_letter` (`ARABIC_BLOCKS`). -/
def inArabicBlock (c : Char) : Bool :=
  (0x0600 ≤ c.toNat && c.toNat ≤ 0x06FF) ||
  (0x0750 ≤ c.toNat && c.toNat ≤ 0x077F) ||
  (0x08A0 ≤ c.toNat && c.toNat ≤ 0x08FF) ||
  (0xFB50 ≤ c.toNat && c.toNat ≤ 0xFDFF) ||
  (0xFE70 ≤ c.toNat && c.toNat ≤ 0xFEFF)

/-- The narrow Arabic regex class `[؀-ۿ]` used by
`translate_service._translate_batch` and `pdf_translation_service`. -/
def arabic606Char (c : Char) : Bool :=
  0x0600 ≤ c.toNat && c.toNat ≤ 0x06FF

/-- The comprehensive Arabic regex class
`[؀-ۿﭐ-﷿ﹰ-﻿]` used by
`translate_service.translate_batch` and `_translate_chunks`. -/
def arabicFullChar (c : Char) : Bool :=
  (0x0600 ≤ c.toNat && c.toNat ≤ 0x06FF) ||
  (0xFB50 ≤ c.toNat && c.toNat ≤ 0xFDFF) ||
  (0xFE70 ≤ c.toNat && c.toNat ≤ 0xFEFF)

/-- Python regex `\d` / `str.isdigit` (Unicode decimal digits), restricted to
the digit ranges this pipeline encounters: ASCII `0-9`, Arabic-Indic
U+0660–U+0669 and Extended (Persian) Arabic-Indic U+06F0–U+06F9. -/
def pyIsDigit (c : Char) : Bool :=
  (0x30 ≤ c.toNat && c.toNat ≤ 0x39) ||
  (0x0660 ≤ c.toNat && c.toNat ≤ 0x0669) ||
  (0x06F0 ≤ c.toNat && c.toNat ≤ 0x06F9)

/-- Python whitespace (`\s`, `str.strip()`, `str.split()`), restricted to the
ASCII whitespace characters plus NEL and NBSP. -/
def pyIsSpace (c : Char) : Bool :=
  c.toNat = 0x20 || c.toNat = 0x09 || c.toNat = 0x0A || c.toNat = 0x0D ||
  c.toNat = 0x0B || c.toNat = 0x0C || c.toNat = 0x85 || c.toNat = 0xA0

/-- Python regex `\w` (word characters), restricted as above: ASCII
alphanumerics, underscore, and the alphanumeric characters of the Arabic
blocks and presentation forms. -/
def pyIsWord (c : Char) : Bool :=
  (0x30 ≤ c.toNat && c.toNat ≤ 0x39) ||
  (0x41 ≤ c.toNat && c.toNat ≤ 0x5A) ||
  (0x61 ≤ c.toNat && c.toNat ≤ 0x7A) ||
  c.toNat = 0x5F ||
  (0x0620 ≤ c.toNat && c.toNat ≤ 0x064A) ||
  (0x0660 ≤ c.toNat && c.toNat ≤ 0x0669) ||
  (0x066E ≤ c.toNat && c.toNat ≤ 0x06D3) ||
  (0x06F0 ≤ c.toNat && c.toNat ≤ 0x06FC) ||
  (0x0750 ≤ c.toNat && c.toNat ≤ 0x077F) ||
  (0x08A0 ≤ c.toNat && c.toNat ≤ 0x08FF) ||
  (0xFB50 ≤ c.toNat && c.toNat ≤ 0xFDFF) ||
  (0xFE70 ≤ c.toNat && c.toNat ≤ 0xFEFF)

/-- ASCII letter (`[a-zA-Z]`). -/
def asciiLetter (c : Char) : Bool :=
  (0x41 ≤ c.toNat && c.toNat ≤ 0x5A) || (0x61 ≤ c.toNat && c.toNat ≤ 0x7A)

/-- ASCII digit (`[0-9]`). -/
def asciiDigit (c : Char) : Bool :=
  0x30 ≤ c.toNat && c.toNat ≤ 0x39

/-! ## Python string primitives (over `List Char`) -/

/-- `str.strip()` on a character list. -/
def stripChars (l : List Char) : List Char :=
  ((l.dropWhile pyIsSpace).reverse.dropWhile pyIsSpace).reverse

/-- Python `s.strip()`. -/
def pyStrip (s : String) : String :=
  ⟨stripChars s.data⟩

/-- Search of a character predicate, i.e. `re.search('[class]', s)`. -/
def hasCharIn (p : Char → Bool) (s : String) : Bool :=
  s.data.any p

/-- `re.search('[؀-ۿ]', s)`. -/
def hasArabic606 (s : String) : Bool := hasCharIn arabic606Char s

/-- `arabic_pattern.search(s)` for the comprehensive pattern. -/
def hasArabicFull (s : String) : Bool := hasCharIn arabicFullChar s

/-- `arabic_utils.has_arabic_letter`. -/
def has_arabic_letter (s : String) : Bool := hasCharIn inArabicBlock s

/-- `arabic_utils.has_any_digit`: `ch.isdigit()` or Arabic-Indic digit
(U+0660–U+0669, all of which `pyIsDigit` already covers). -/
def has_any_digit (s : String) : Bool := hasCharIn pyIsDigit s

/-- `arabic_utils.fix_rtl_token`: reverse the token when it contains an
Arabic-block character and no digit. -/
def fix_rtl_token (s : String) : String :=
  if has_arabic_letter s && !has_any_digit s then ⟨s.data.reverse⟩ else s

/-- Structural splitter on a character predicate, keeping empty pieces
(Python `str.split(sep)` semantics over the character list). -/
def splitCharsAux (p : Char → Bool) : List Char → List Char → List (List Char)
  | acc, [] => [acc.reverse]
  | acc, c :: rest =>
    if p c then acc.reverse :: splitCharsAux p [] rest
    else splitCharsAux p (c :: acc) rest

/-- Split a string at every character matching the predicate, keeping empty
pieces. -/
def pySplitKeep (p : Char → Bool) (s : String) : List String :=
  (splitCharsAux p [] s.data).map fun l => ⟨l⟩

/-- Python `' '.join(s.split())`: collapse whitespace runs, dropping empties. -/
def collapseWs (s : String) : String :=
  String.intercalate " " ((pySplitKeep pyIsSpace s).filter (fun t => t ≠ ""))

/-- Auxiliary state machine for collapsing space/tab runs; the flag records
whether the previous character was part of a run. -/
def collapseSTAux : Bool → List Char → List Char
  | _, [] => []
  | inRun, c :: rest =>
    if c = ' ' || c = '\t' then
      (if inRun then [] else [' ']) ++ collapseSTAux true rest
    else c :: collapseSTAux false rest

/-- `re.sub(r'[ \t]+', ' ', s)`: collapse runs of spaces and tabs into a
single space (other whitespace untouched). -/
def collapseSpaceTab (s : String) : String :=
  ⟨collapseSTAux false s.data⟩

/-- Non-overlapping substring count (fuelled for structural recursion; the
fuel is the scanned string's length, which always suffices). -/
def countSubFuel (p : List Char) : ℕ → List Char → ℕ
  | 0, _ => 0
  | _ + 1, [] => 0
  | fuel + 1, c :: rest =>
    if p.isPrefixOf (c :: rest) then 1 + countSubFuel p fuel ((c :: rest).drop p.length)
    else countSubFuel p fuel rest

/-- Python `s.count(p)`, counting non-overlapping occurrences left to right. -/
def countSub (s p : List Char) : ℕ :=
  if p = [] then s.length + 1 else countSubFuel p s.length s

/-- Replacement of every occurrence of a nonempty literal pattern, scanning
left to right (fuelled for structural recursion). -/
def replaceSubFuel (p r : List Char) : ℕ → List Char → List Char
  | 0, s => s
  | _ + 1, [] => []
  | fuel + 1, c :: rest =>
    if p.isPrefixOf (c :: rest) then r ++ replaceSubFuel p r fuel ((c :: rest).drop p.length)
    else c :: replaceSubFuel p r fuel rest

/-- Python `re.sub(pat, repl, s)` for a literal pattern / `str.replace`. -/
def replaceSub (s p r : List Char) : List Char :=
  if p = [] then s else replaceSubFuel p r s.length s

/-- `re.sub(pat, repl, s)` for a literal pattern, on strings. -/
def pySubLit (pat repl s : String) : String :=
  ⟨replaceSub s.data pat.data repl.data⟩

/-- ASCII `str.lower()`. -/
def lowerAscii (s : String) : String :=
  ⟨s.data.map Char.toLower⟩

/-- Python `s.split(sep)` for a single-character separator keeps empty
pieces; this is `str.split('\n')`. -/
def splitLines (s : String) : List String :=
  pySplitKeep (fun c => c = '\n') s

/-! ## Geometry model (`tables_service`) -/

/-- Python `int()` truncation toward zero on a rational. -/
def pyInt (q : ℚ) : ℤ :=
  if 0 ≤ q then ⌊q⌋ else -⌊-q⌋

/-- Python `round(x)` to an integer: round-half-to-even (floats are modelled
as exact rationals). -/
def roundHalfEven (q : ℚ) : ℤ :=
  let f := ⌊q⌋
  if q - f < 1/2 then f
  else if q - f > 1/2 then f + 1
  else if f % 2 = 0 then f else f + 1

/-- Python `round(x, 1)`. -/
def round1 (q : ℚ) : ℚ :=
  (roundHalfEven (q * 10) : ℚ) / 10

/-- `List.filter` by a decidable proposition (Python filtering by a
predicate's truth value). -/
def filterP (p : α → Prop) [DecidablePred p] (l : List α) : List α :=
  l.filter fun a => decide (p a)

/-- Python `any(p(a) for a in l)`. -/
def anyP (p : α → Prop) [DecidablePred p] (l : List α) : Prop :=
  ∃ a ∈ l, p a

instance (p : α → Prop) [DecidablePred p] (l : List α) : Decidable (anyP p l) :=
  List.decidableBEx p l

/-- Insertion of an element into a sorted list (stable: an inserted element
precedes subsequent elements it ties with). -/
def insertSorted (le : α → α → Bool) (x : α) : List α → List α
  | [] => [x]
  | y :: ys => if le x y then x :: y :: ys else y :: insertSorted le x ys

/-- Stable ascending sort (models Python `sorted`/`list.sort`, which are
stable); implemented as insertion sort so it is kernel-computable. -/
def sortBy (le : α → α → Bool) (l : List α) : List α :=
  l.foldr (insertSorted le) []

/-- Ascending sort of rationals (Python `sorted`). -/
def qsort (l : List ℚ) : List ℚ :=
  sortBy (fun a b => decide (a ≤ b)) l

/-- Python `sorted(set(l))`. -/
def sortedSet (l : List ℚ) : List ℚ :=
  (qsort l).dedup

/-- A word token `{text, x0, top, x1, bottom}` from the text-extraction
collaborator. -/
structure Word where
  text : String
  x0 : ℚ
  top : ℚ
  x1 : ℚ
  bottom : ℚ
deriving DecidableEq, Repr

/-- A candidate table region
`{x0, y0, x1, y1, rows, confidence?}` (`confidence` is absent on regions
built by `_detect_table_regions` and present on subregions). -/
structure Region where
  x0 : ℚ
  y0 : ℚ
  x1 : ℚ
  y1 : ℚ
  rows : List (List Word)
  confidence : Option ℚ
deriving DecidableEq, Repr

/-! ### `TableDetectionService._detect_columns` -/

/-- A word whose span crosses the candidate gap center. -/
def wordCrosses (center : ℚ) (w : Word) : Prop :=
  w.x0 < center ∧ center < w.x1

instance (center : ℚ) (w : Word) : Decidable (wordCrosses center w) :=
  instDecidableAnd

/-- The internal gap centers of `_detect_columns`: for each adjacent pair of
distinct x-positions, keep the midpoint when the gap exceeds 15 units and no
word crosses it. -/
def columnGaps (words : List Word) (xs : List ℚ) : List ℚ :=
  (xs.zip xs.tail).filterMap fun p =>
    if 15 < p.2 - p.1 then
      let center := (p.1 + p.2) / 2
      if filterP (wordCrosses center) words = [] then some center else none
    else none

/-- The `filtered` accumulation of `_detect_columns`: keep a boundary only
when it is more than 18 units after the last kept one. -/
def filterCloseAux (last : ℚ) : List ℚ → List ℚ
  | [] => []
  | c :: cs => if 18 < c - last then c :: filterCloseAux c cs else filterCloseAux last cs

/-- `TableDetectionService._detect_columns`. -/
def detect_columns (words : List Word) (region : Region) : List ℚ :=
  if words = [] then [region.x0, region.x1]
  else
    let xs := sortedSet (words.flatMap fun w => [w.x0, w.x1])
    let gaps := columnGaps words xs
    qsort (region.x0 :: filterCloseAux region.x0 (gaps ++ [region.x1]))

/-! ### `TableDetectionService._split_region_horizontally` -/

/-- The words backing a region (`[w for row in region["rows"] for w in row]`). -/
def regionFlatWords (r : Region) : List Word :=
  r.rows.flatMap id

/-- The 60-bin horizontal word-center density histogram. -/
def histCounts (words : List Word) (rx0 rx1 binSize : ℚ) : List ℕ :=
  words.foldl
    (fun counts w =>
      let xc := (w.x0 + w.x1) / 2
      if xc < rx0 ∨ rx1 < xc then counts
      else
        let idx := (max 0 (min 59 (pyInt ((xc - rx0) / binSize)))).toNat
        counts.set idx (counts.getD idx 0 + 1))
    (List.replicate 60 0)

/-- Group contiguous valley bins; each maximal group contributes the x of its
center bin (`x0 + (mid_bin + 0.5) * bin_size`). -/
def groupValleysAux (rx0 binSize : ℚ) (start prev : ℕ) : List ℕ → List ℚ
  | [] => [rx0 + (((start : ℚ) + prev) / 2 + 1/2) * binSize]
  | b :: bs =>
    if b = prev + 1 then groupValleysAux rx0 binSize start b bs
    else (rx0 + (((start : ℚ) + prev) / 2 + 1/2) * binSize) :: groupValleysAux rx0 binSize b b bs

/-- All valley-center split candidates. -/
def groupValleys (rx0 binSize : ℚ) : List ℕ → List ℚ
  | [] => []
  | v :: vs => groupValleysAux rx0 binSize v v vs

/-- Python `min(l, key=lambda x: abs(x - mid))` (first minimum wins). -/
def argminAbsAux (mid best : ℚ) : List ℚ → ℚ
  | [] => best
  | x :: xs => if |x - mid| < |best - mid| then argminAbsAux mid x xs else argminAbsAux mid best xs

/-- `best_split = min(split_xs, key=...)` on a nonempty candidate list. -/
def argminAbs (mid : ℚ) : List ℚ → ℚ
  | [] => 0
  | x :: xs => argminAbsAux mid x xs

/-- Distinct rounded row y-positions strictly left of the split
(`sorted(set(round(w["top"], 1) ...))`). -/
def leftYPositions (words : List Word) (split : ℚ) : List ℚ :=
  sortedSet ((filterP (fun w => (w.x0 + w.x1) / 2 < split) words).map fun w => round1 w.top)

/-- Distinct rounded row y-positions at or right of the split. -/
def rightYPositions (words : List Word) (split : ℚ) : List ℚ :=
  sortedSet ((filterP (fun w => split ≤ (w.x0 + w.x1) / 2) words).map fun w => round1 w.top)

/-- Count of left row positions having a right row position within 2.0. -/
def exactMatches (lys rys : List ℚ) : ℕ :=
  (filterP (fun ly => anyP (fun ry => |ly - ry| ≤ 2) rys) lys).length

/-- The subregion built for `(sx0, sx1)`: dropped when narrower than 250
units or when no row retains a word in its x-range. -/
def subregionFor (region : Region) (sx0 sx1 : ℚ) : Option Region :=
  if sx1 - sx0 < 250 then none
  else
    let subRows := region.rows.filterMap fun row =>
      let rw := filterP (fun w => sx0 < w.x1 ∧ w.x0 < sx1) row
      if rw = [] then none else some rw
    if subRows = [] then none
    else some { x0 := sx0, x1 := sx1, y0 := region.y0, y1 := region.y1,
                rows := subRows, confidence := some (region.confidence.getD (4/5)) }

/-- Python `max(l)` on a list of naturals (`max` of a nonempty count list). -/
def listMax (l : List ℕ) : ℕ :=
  l.foldl max 0

/-- The valley bins: indices whose count is at or below the threshold. -/
def sdhValleyBins (counts : List ℕ) (threshold : ℚ) : List ℕ :=
  filterP (fun i => ((counts.getD i 0 : ℚ) ≤ threshold)) (List.range 60)

/-- The value of `best_split` at the point where
`_split_region_horizontally` reaches its row-alignment check; `none` when one
of the earlier guards (empty/narrow region, empty histogram, no valley, dense
center, weak or off-center valley) already returned `[region]`. -/
def sdhBestSplit (region : Region) (minGapRatio : ℚ) : Option ℚ :=
  let words := regionFlatWords region
  if words = [] then none
  else
    let width := region.x1 - region.x0
    if width ≤ 0 then none
    else if width < 300 then none
    else
      let binSize := width / 60
      let counts := histCounts words region.x0 region.x1 binSize
      let maxCount := counts.foldl max 0
      if maxCount = 0 then none
      else
        let valleyBins := sdhValleyBins counts ((maxCount : ℚ) * minGapRatio)
        if valleyBins = [] then none
        else
          let leftMax := listMax (counts.take 30)
          let rightMax := listMax (counts.drop 30)
          let centerMax := listMax ((counts.drop 29).take 3)
          if (7/10 : ℚ) * (max leftMax rightMax : ℕ) ≤ (centerMax : ℚ) then none
          else
            let splitXs := groupValleys region.x0 binSize valleyBins
            if splitXs = [] then none
            else
              let midRegion := (region.x0 + region.x1) / 2
              let bestSplit := argminAbs midRegion splitXs
              let distFromCenter := |bestSplit - midRegion| / width
              let bestBin := (max 0 (min 59 (pyInt ((bestSplit - region.x0) / binSize)))).toNat
              let valleyDepth := 1 - (counts.getD bestBin 0 : ℚ) / maxCount
              if valleyDepth < 3/5 ∨ 1/4 < distFromCenter then none
              else some bestSplit

/-- `exact_match_ratio`: matched left rows over the smaller side's row count. -/
def exactMatchRatio (words : List Word) (b : ℚ) : ℚ :=
  (exactMatches (leftYPositions words b) (rightYPositions words b) : ℚ) /
    ((max 1 (min (leftYPositions words b).length (rightYPositions words b).length) : ℕ) : ℚ)

/-- `row_count_ratio`: the smaller side's row count over the larger side's. -/
def rowCountRatio (words : List Word) (b : ℚ) : ℚ :=
  ((min (leftYPositions words b).length (rightYPositions words b).length : ℕ) : ℚ) /
    ((max 1 (max (leftYPositions words b).length (rightYPositions words b).length) : ℕ) : ℚ)

/-- The kept subregions for a split at `b`. -/
def sdhSubregions (region : Region) (b : ℚ) : List Region :=
  [(region.x0, b), (b, region.x1)].filterMap fun p => subregionFor region p.1 p.2

/-- `TableDetectionService._split_region_horizontally` (the second argument,
`all_page_words`, is unused in the source body as well). -/
def split_region_horizontally (region : Region) (_allPageWords : List Word)
    (minGapRatio : ℚ) : List Region :=
  (sdhBestSplit region minGapRatio).elim [region] fun bestSplit =>
    if (4/5 : ℚ) < exactMatchRatio (regionFlatWords region) bestSplit ∧
       (3/5 : ℚ) < rowCountRatio (regionFlatWords region) bestSplit then [region]
    else if sdhSubregions region bestSplit = [] then [region]
    else sdhSubregions region bestSplit

/-! ## Table builder (`table_handler.py`) -/

/-- `CellLayout` from `table_handler.py`. -/
structure CellLayout where
  text : String
  x0 : ℚ
  y0 : ℚ
  x1 : ℚ
  y1 : ℚ
deriving DecidableEq, Repr

/-- The per-word token record built inside `words_to_table`
(`{"text": w["text"].strip(), "x": x_center, "x0": ..., "x1": ...}`). -/
structure Tok where
  text : String
  x : ℚ
  x0 : ℚ
  x1 : ℚ
deriving DecidableEq, Repr

/-- The sort key of `sorted(words, key=lambda w: (round(w["top"], 1), w["x0"]))`. -/
def wordKeyLe (w1 w2 : Word) : Bool :=
  decide (round1 w1.top < round1 w2.top ∨ (round1 w1.top = round1 w2.top ∧ w1.x0 ≤ w2.x0))

/-- Row grouping by `abs(w["top"] - current_y) <= y_tolerance`, anchored at
the first word's top of each row. -/
def groupRowsAux (ytol : ℚ) : ℚ → List Word → List Word → List (List Word)
  | _, cur, [] => [cur.reverse]
  | curY, cur, w :: ws =>
    if |w.top - curY| ≤ ytol then groupRowsAux ytol curY (w :: cur) ws
    else cur.reverse :: groupRowsAux ytol w.top [w] ws

/-- Group the sorted words into rows. -/
def groupRows (ytol : ℚ) : List Word → List (List Word)
  | [] => []
  | w :: ws => groupRowsAux ytol w.top [w] ws

/-- `processing_row_bounds`: `(min(tops), max(bottoms))`, `(0, 0)` on an
empty row. -/
def rowBoundsOf : List Word → ℚ × ℚ
  | [] => (0, 0)
  | w :: ws =>
    (ws.foldl (fun m v => min m v.top) w.top, ws.foldl (fun m v => max m v.bottom) w.bottom)

/-- First column interval `[col_bounds[i], col_bounds[i+1]]` containing the
center (the `for i in range(n_cols) ... break` scan). -/
def findCol (colBounds : List ℚ) (xc : ℚ) : Option ℕ :=
  match colBounds with
  | [] => none
  | [_] => none
  | b0 :: b1 :: rest =>
    if b0 ≤ xc ∧ xc ≤ b1 then some 0
    else (findCol (b1 :: rest) xc).map (fun i => i + 1)

/-- Distribute one word into its column's token list. -/
def assignTok (colBounds : List ℚ) (acc : List (List Tok)) (w : Word) : List (List Tok) :=
  let xc := (w.x0 + w.x1) / 2
  match findCol colBounds xc with
  | none => acc
  | some i =>
    acc.set i (acc.getD i [] ++ [{ text := pyStrip w.text, x := xc, x0 := w.x0, x1 := w.x1 }])

/-- The `col_tokens` lists of one row. -/
def colTokens (colBounds : List ℚ) (rowWords : List Word) : List (List Tok) :=
  rowWords.foldl (assignTok colBounds) (List.replicate (colBounds.length - 1) [])

/-- The separator between two adjacent sorted tokens: glyph fragments closer
than the threshold (3.0 for RTL order, 2.0 for LTR) are concatenated. -/
def tokGapSep (rtl : Bool) (prev t : Tok) : String :=
  if rtl then (if prev.x0 - t.x1 < 3 then "" else " ")
  else (if t.x0 - prev.x1 < 2 then "" else " ")

/-- The tail of the `parts` list: separator then fixed token, repeatedly. -/
def cellPartsAux (rtl : Bool) : Tok → List Tok → List String
  | _, [] => []
  | prev, t :: ts => tokGapSep rtl prev t :: fix_rtl_token t.text :: cellPartsAux rtl t ts

/-- The `parts` list assembled for one cell from its sorted tokens. -/
def cellParts (rtl : Bool) : List Tok → List String
  | [] => []
  | t :: ts => fix_rtl_token t.text :: cellPartsAux rtl t ts

/-- Cell text: RTL if any token has an Arabic-block character, tokens sorted
by x (descending if RTL), joined with gap-sensitive separators, stripped. -/
def cellTextOf (toks : List Tok) : String :=
  let rtl := toks.any fun t => has_arabic_letter t.text
  let sorted := sortBy (fun a b => if rtl then decide (b.x ≤ a.x) else decide (a.x ≤ b.x)) toks
  pyStrip (String.join ((cellParts rtl sorted).filter fun p => p ≠ ""))

/-- One built row: texts and layouts; cell geometry comes from the row's
vertical span and the adjacent column boundaries. -/
def buildRow (colBounds : List ℚ) (rowWords : List Word) : List String × List CellLayout :=
  let n := colBounds.length - 1
  let toks := colTokens colBounds rowWords
  let rb := rowBoundsOf rowWords
  ((List.range n).map fun i => cellTextOf (toks.getD i []),
   (List.range n).map fun i =>
     { text := cellTextOf (toks.getD i []), x0 := colBounds.getD i 0, y0 := rb.1,
       x1 := colBounds.getD (i + 1) 0, y1 := rb.2 })

/-- `TableHandler.words_to_table`: rows of cell text plus parallel layouts;
rows whose cells are all empty after assembly are dropped. -/
def words_to_table (words : List Word) (col_bounds : List ℚ) (y_tolerance : ℚ) :
    List (List String) × List (List CellLayout) :=
  if words = [] then ([], [])
  else
    let rows := groupRows y_tolerance (sortBy wordKeyLe words)
    let kept := (rows.map (buildRow col_bounds)).filter fun p =>
      p.1.any fun t => pyStrip t ≠ ""
    (kept.map Prod.fst, kept.map Prod.snd)

/-! ## Translation gateway (`translate_service.py`) -/

/-- The numeric/punctuation character class of the pure-numeric fast path:
`[\u0660-\u0669\u06F0-\u06F9\d\.,\(\)\-\+%\[\]]`. -/
def numericClassChar (c : Char) : Bool :=
  (0x0660 ≤ c.toNat && c.toNat ≤ 0x0669) ||
  (0x06F0 ≤ c.toNat && c.toNat ≤ 0x06F9) ||
  pyIsDigit c ||
  c = '.' || c = ',' || c = '(' || c = ')' || c = '-' || c = '+' || c = '%' ||
  c = '[' || c = ']'

/-- The pure-numeric check: remove `[ \t\r\n]` and fully match the numeric
class (nonempty). -/
def pureNumeric (s : String) : Bool :=
  let clean := s.data.filter fun c => !(c = ' ' || c = '\t' || c = '\r' || c = '\n')
  !clean.isEmpty && clean.all numericClassChar

/-- The direct digit/punctuation conversion `mapping.get(c, c)`. -/
def translitChar (c : Char) : Char :=
  match c with
  | '٠' => '0' | '١' => '1' | '٢' => '2' | '٣' => '3' | '٤' => '4'
  | '٥' => '5' | '٦' => '6' | '٧' => '7' | '٨' => '8' | '٩' => '9'
  | '۰' => '0' | '۱' => '1' | '۲' => '2' | '۳' => '3' | '۴' => '4'
  | '۵' => '5' | '۶' => '6' | '۷' => '7' | '۸' => '8' | '۹' => '9'
  | '،' => ',' | '٪' => '%'
  | other => other

/-- `"".join(mapping.get(c, c) for c in text)`. -/
def translitText (s : String) : String :=
  ⟨s.data.map translitChar⟩

/-- `layout_extraction_service.normalize_arabic_numerals`: Arabic-Indic
digits U+0660–U+0669 to Western digits via `str.translate`. -/
def normalize_arabic_numerals (s : String) : String :=
  ⟨s.data.map fun c =>
    if 0x0660 ≤ c.toNat ∧ c.toNat ≤ 0x0669 then Char.ofNat (c.toNat - 0x0660 + 0x30) else c⟩

/-- `translate_service._is_translatable`: the junk filter (`0.6` is the exact
rational 3/5, compared cross-multiplied). -/
def is_translatable (text : String) : Bool :=
  if text = "" ∨ pyStrip text = "" then false
  else
    let clean := stripChars text.data
    let hasAlpha := clean.any fun c => asciiLetter c || arabic606Char c
    let hasDigit := clean.any pyIsDigit
    let hasSymbol := clean.any fun c => !(pyIsWord c || pyIsSpace c)
    if clean.length < 5 ∧ hasDigit ∧ (hasAlpha ∨ hasSymbol) then false
    else
      let nonAlnum := (clean.filter fun c => !(pyIsWord c || pyIsSpace c || arabic606Char c)).length
      if 5 * nonAlnum > 3 * clean.length then false
      else true

/-- The sentence-ending character class `[.!؟!?؛]`. -/
def sentEnd (c : Char) : Bool :=
  c = '.' || c = '!' || c = '؟' || c = '?' || c = '؛'

/-- `re.split(r'([.!؟!?؛]\s+)', line)`: the alternating text/separator token
list (fuelled structural scan; fuel is the remaining length). -/
def splitSentFuel : ℕ → List Char → List Char → List String
  | 0, acc, rest => [⟨acc.reverse ++ rest⟩]
  | _ + 1, acc, [] => [⟨acc.reverse⟩]
  | fuel + 1, acc, c :: rest =>
    if sentEnd c ∧ rest.takeWhile pyIsSpace ≠ [] then
      ⟨acc.reverse⟩ :: ⟨c :: rest.takeWhile pyIsSpace⟩ ::
        splitSentFuel fuel [] (rest.dropWhile pyIsSpace)
    else splitSentFuel fuel (c :: acc) rest

/-- The sentence tokens of one line (texts and separators, in order). -/
def splitSentTokens (line : String) : List String :=
  splitSentFuel line.data.length [] line.data

/-- The nonempty tokens that the reconstruction loop iterates
(`if not token: continue`). -/
def lineTokens (line : String) : List String :=
  (splitSentTokens line).filter fun t => t ≠ ""

/-- A token-level reconstruction operation of `translate_batch`: a constant
or a reference into the flat translated-segments list. -/
inductive TokOp where
  | const (v : String)
  | ref (idx : ℕ)
deriving DecidableEq, Repr

/-- A line-level operation: a constant line or a token sequence. -/
inductive LineOp where
  | const (v : String)
  | segs (toks : List TokOp)
deriving DecidableEq, Repr

/-- A text-level operation: `{'type': 'const'}` or `{'type': 'rebuild_lines'}`. -/
inductive TextOp where
  | const (v : String)
  | rebuild (lines : List LineOp)
deriving DecidableEq, Repr

/-- Token operations of one line starting at flat index `start`, paired with
the Arabic segments appended to `flat_segments`. -/
def mkTokOps : List String → ℕ → List TokOp × List String
  | [], _ => ([], [])
  | t :: ts, start =>
    if hasArabicFull t then
      let rest := mkTokOps ts (start + 1)
      (TokOp.ref start :: rest.1, t :: rest.2)
    else
      let rest := mkTokOps ts start
      (TokOp.const t :: rest.1, rest.2)

/-- Line operations of a text's lines starting at flat index `start`. -/
def mkLineOps : List String → ℕ → List LineOp × List String
  | [], _ => ([], [])
  | l :: ls, start =>
    if pyStrip l = "" then
      let rest := mkLineOps ls start
      (LineOp.const "" :: rest.1, rest.2)
    else
      let tokRes := mkTokOps (lineTokens l) start
      let rest := mkLineOps ls (start + tokRes.2.length)
      (LineOp.segs tokRes.1 :: rest.1, tokRes.2 ++ rest.2)

/-- The operation recorded for one input text of `translate_batch`, with the
flat segments it contributes, starting at flat index `start`. -/
def mkTextOp (text : String) (start : ℕ) : TextOp × List String :=
  if text = "" ∨ pyStrip text = "" then (TextOp.const "", [])
  else if ¬ hasArabicFull text then (TextOp.const text, [])
  else if pureNumeric text then (TextOp.const (translitText text), [])
  else if ¬ is_translatable text then (TextOp.const text, [])
  else
    let res := mkLineOps (splitLines (collapseSpaceTab (pyStrip text))) start
    (TextOp.rebuild res.1, res.2)

/-- The `operations` list and `flat_segments` of `translate_batch`. -/
def mkOpsAux : List String → ℕ → List TextOp × List String
  | [], _ => ([], [])
  | t :: ts, start =>
    let first := mkTextOp t start
    let rest := mkOpsAux ts (start + first.2.length)
    (first.1 :: rest.1, first.2 ++ rest.2)

/-- `operations` and `flat_segments` for the whole input list. -/
def mkOps (texts : List String) : List TextOp × List String :=
  mkOpsAux texts 0

/-- The Arabic sentence segments of one input text that `translate_batch`
appends to `flat_segments` (and hence sends to the model). -/
def textSegments (text : String) : List String :=
  (mkTextOp text 0).2

/-- Reconstruction of one token from the translated-segments list
(`trans if trans is not None else ""`; references are always in range). -/
def renderTok (translated : List String) : TokOp → String
  | TokOp.const v => v
  | TokOp.ref i => translated.getD i ""

/-- Reconstruction of one line (`"".join(segment_parts)`). -/
def renderLine (translated : List String) : LineOp → String
  | LineOp.const v => v
  | LineOp.segs toks => String.join (toks.map (renderTok translated))

/-- Reconstruction of one text (`"\n".join(lines)`). -/
def renderText (translated : List String) : TextOp → String
  | TextOp.const v => v
  | TextOp.rebuild lines => String.intercalate "\n" (lines.map (renderLine translated))

/-- The stopword list of `_is_bad_translation`. -/
def stopWords : List String :=
  ["the", "a", "an", "and", "or", "in", "on", "at", "to", "for", "of", "with"]

/-- The hallucination marker phrases. -/
def badPhrases : List String :=
  ["rabbit", "lick", "sleeve", "european union"]

/-- Python `s.split()` (whitespace split, empties dropped). -/
def pySplitWs (s : String) : List String :=
  (pySplitKeep pyIsSpace s).filter fun t => t ≠ ""

/-- Word-count accumulation (`word_counts[word] = word_counts.get(word, 0) + 1`). -/
def bumpCount : List (String × ℕ) → String → List (String × ℕ)
  | [], w => [(w, 1)]
  | (k, v) :: rest, w =>
    if k = w then (k, v + 1) :: rest else (k, v) :: bumpCount rest w

/-- The word-count table of the non-stopword tokens. -/
def wordCounts (ws : List String) : List (String × ℕ) :=
  ws.foldl bumpCount []

/-- `max(word_counts.values())` (0 on an empty table; guarded by nonemptiness). -/
def maxCountVal (l : List (String × ℕ)) : ℕ :=
  l.foldl (fun m p => max m p.2) 0

/-- `re.findall(r'\d+', s)`: maximal digit runs (fuelled scan). -/
def digitRunsFuel : ℕ → List Char → List (List Char)
  | 0, _ => []
  | _ + 1, [] => []
  | fuel + 1, c :: rest =>
    if pyIsDigit c then
      (c :: rest.takeWhile pyIsDigit) :: digitRunsFuel fuel (rest.dropWhile pyIsDigit)
    else digitRunsFuel fuel rest

/-- The digit runs of a string. -/
def digitRuns (s : String) : List (List Char) :=
  digitRunsFuel s.data.length s.data

/-- Matching of `x\d+` after the second digit run of `\d+x\d+x\d+`. -/
def dxdAfterSecond : List Char → Bool
  | 'x' :: r => !(r.takeWhile pyIsDigit).isEmpty
  | _ => false

/-- Matching of `x\d+x\d+` after the first digit run. -/
def dxdAfterFirst : List Char → Bool
  | 'x' :: r =>
    !(r.takeWhile pyIsDigit).isEmpty && dxdAfterSecond (r.dropWhile pyIsDigit)
  | _ => false

/-- Match of `\d+x\d+x\d+` anchored at this position. -/
def dxdAt (cs : List Char) : Bool :=
  !(cs.takeWhile pyIsDigit).isEmpty && dxdAfterFirst (cs.dropWhile pyIsDigit)

/-- `re.search(r'\d+x\d+x\d+', s, re.IGNORECASE)` on the lowered string. -/
def dxdSearch : List Char → Bool
  | [] => false
  | c :: rest => dxdAt (c :: rest) || dxdSearch rest

/-- The `\s*,\s*\1` suffix check of the repetition regex, for a fixed
group `w`. -/
def crComma (w : List Char) (rest : List Char) : Bool :=
  match rest.dropWhile pyIsSpace with
  | ',' :: r1 => w.isPrefixOf (r1.dropWhile pyIsSpace)
  | _ => false

/-- The `\s*,\s*\1\s*,\s*\1` tail of the repetition regex. -/
def crTail (w : List Char) (rest : List Char) : Bool :=
  match rest.dropWhile pyIsSpace with
  | ',' :: r1 =>
    let r2 := r1.dropWhile pyIsSpace
    w.isPrefixOf r2 && crComma w (r2.drop w.length)
  | _ => false

/-- Attempts of `(\w+)...` at this position: the group is any nonempty
prefix of the maximal word-character run (regex backtracking is an
existential search over the group length). -/
def crAt (cs : List Char) : Bool :=
  (List.range (cs.takeWhile pyIsWord).length).any fun k =>
    crTail (cs.take (k + 1)) (cs.drop (k + 1))

/-- Word-boundary test for the position following `prev`. -/
def boundaryOk : Option Char → Bool
  | none => true
  | some p => !pyIsWord p

/-- Scan of `\b(\w+)\s*,\s*\1\s*,\s*\1` over all positions. -/
def crScan : Option Char → List Char → Bool
  | _, [] => false
  | prev, c :: rest => (boundaryOk prev && crAt (c :: rest)) || crScan (some c) rest

/-- `re.search(r'\b(\w+)\s*,\s*\1\s*,\s*\1', s, re.IGNORECASE)` on the
lowered string. -/
def commaRepeat (s : String) : Bool :=
  crScan none s.data

/-- `translate_service._is_bad_translation` (ratios `0.4` and `0.15` are the
exact rationals 2/5 and 3/20, compared cross-multiplied). -/
def is_bad_translation (translated original : String) : Bool :=
  if translated = "" ∨ original = "" then true
  else
    let tl := lowerAscii translated
    if badPhrases.any fun p => countSub tl.data p.data > 2 then true
    else
      let ws := pySplitWs tl
      let counts := wordCounts (ws.filter fun w => !stopWords.contains w)
      if ws.length > 5 ∧ counts ≠ [] ∧ 5 * maxCountVal counts > 2 * ws.length then true
      else if 20 * (stripChars translated.data).length < 3 * (stripChars original.data).length then
        true
      else if commaRepeat tl then true
      else if dxdSearch tl.data then true
      else if (digitRuns translated).length > 3 ∧ (digitRuns translated).dedup.length = 1 then true
      else false

/-- `translate_service._translate_batch` (single-string translation with
validation), with `gen2` the model's single-call decode; its `try/except`
fallback paths are dead because the oracle is total. -/
def tBatchSingle (gen2 : String → String) (text : String) : String :=
  if text = "" ∨ pyStrip text = "" then ""
  else if ¬ hasArabic606 text then pyStrip text
  else
    let t := collapseWs text
    let result := pyStrip (gen2 t)
    if result ≠ "" ∧ hasArabic606 result then t
    else if is_bad_translation result t then t
    else result

/-- The deterministic glossary of `_apply_post_processing_rules`, in the
source dictionary's iteration order (duplicate keys collapsed as Python
does). -/
def postReplacements : List (String × String) :=
  [("ر.س.", "SAR"), ("ر.س", "SAR"), ("ريال سعودي", "Saudi Riyal"), ("﷼", "SAR"),
   ("هللة", "Halala"),
   ("هـ", "H"), ("م", "G"),
   ("شركة", "Company"), ("مساهمة", "Joint Stock"), ("السعودية", "Saudi"),
   ("الأساسية", "Basic"), ("للبتروكيماويات", "Petrochemical"), ("مقفلة", "Closed"),
   ("محدودة", "Limited"), ("ذات مسؤولية محدودة", "Limited Liability Company"),
   ("ش.م.م", "LLC"), ("س.ت.", "C.R."), ("ر.م.", "M.N."),
   ("سابك", "SABIC"), ("القوائم المالية", "Financial Statements"),
   ("الموحدة", "Consolidated"), ("السنوية", "Annual"),
   ("للسنة المنتهية في", "For the year ended"),
   ("٣١ ديسيمبر", "31 December"), ("٣١ ديسمبر", "31 December"),
   ("ديسمبر", "December"), ("يناير", "January"), ("فبراير", "February"),
   ("مارس", "March"), ("أبريل", "April"), ("مايو", "May"), ("يونيو", "June"),
   ("يوليو", "July"), ("أغسطس", "August"), ("سبتمبر", "September"),
   ("أكتوبر", "October"), ("نوفمبر", "November"),
   ("تقرير المراجع", "Auditor\x27s Report"), ("المستقل", "Independent"),
   ("المحتويات", "Contents"), ("قائمة المركز المالي", "Statement of Financial Position"),
   ("الأمر الرئيسي للمراجعة", "Key Audit Matter"), ("التتمة", "Continuation"),
   ("تتمة", "Continuation"), ("إلى السادة", "To the Shareholders"),
   ("مساهمي", "Shareholders"), ("المحترمين", "Honorable"), ("الوطني", "National"),
   ("العنوان", "Address"), ("البريدي", "Postal"), ("ص.ب.", "P.O. Box"),
   ("الرياض", "Riyadh"), ("المملكة العربية السعودية", "Kingdom of Saudi Arabia"),
   ("عن", "For"), ("في", "In"), ("إلى", "To"), ("من", "From"),
   ("رقم", "Number"), ("إجمالي", "Total"), ("صافي", "Net")]

/-- Insertion of a space between adjacent characters matching the two
classes (`re.sub(r'(c1)(c2)', r'\1 \2', s)`; the classes are disjoint, so
the scan equals the pairwise walk). -/
def insertPairSpace (p1 p2 : Char → Bool) : List Char → List Char
  | [] => []
  | [c] => [c]
  | c1 :: c2 :: rest =>
    if p1 c1 && p2 c2 then c1 :: ' ' :: insertPairSpace p1 p2 (c2 :: rest)
    else c1 :: insertPairSpace p1 p2 (c2 :: rest)

/-- `re.match(r'^[\d\s\.,]+$', s)`. -/
def numSpaceOnly (s : String) : Bool :=
  !s.data.isEmpty && s.data.all fun c => pyIsDigit c || pyIsSpace c || c = '.' || c = ','

/-- `translate_service._apply_post_processing_rules`. -/
def apply_post_processing_rules (text : String) : String :=
  if text = "" then ""
  else
    let t1 := normalize_arabic_numerals text
    let t2 := postReplacements.foldl (fun s pr => pySubLit pr.1 pr.2 s) t1
    let t3 : String := ⟨insertPairSpace asciiLetter pyIsDigit t2.data⟩
    let t4 : String := ⟨insertPairSpace pyIsDigit asciiLetter t3.data⟩
    if hasArabicFull t4 ∧ (stripChars t4.data).length < 4 then
      if ¬ numSpaceOnly t4 then pyStrip ⟨t4.data.filter fun c => !arabicFullChar c⟩
      else t4
    else t4

/-- The per-element validation step of `_translate_chunks`: batch decode
`gen`, Arabic-leakage and hallucination checks, fallback policies, and the
deterministic post-processing. -/
def processOne (gen gen2 : String → String) (original : String) : String :=
  let res := pyStrip (gen original)
  let arab := res ≠ "" ∧ hasArabicFull res
  let bad := arab ∨ (¬ arab ∧ original.length > 5 ∧ is_bad_translation res original)
  let res2 :=
    if bad then
      if hasArabicFull res then
        let r := tBatchSingle gen2 original
        if hasArabicFull r then normalize_arabic_numerals original else r
      else if original.length < 20 then original
      else tBatchSingle gen2 original
    else res
  apply_post_processing_rules res2

/-- `translate_service._translate_chunks` over the oracles (fuelled batch
loop; each batch decodes elementwise). -/
def translateChunksFuel (gen gen2 : String → String) (bs : ℕ) : ℕ → List String → List String
  | 0, _ => []
  | _ + 1, [] => []
  | fuel + 1, c :: rest =>
    ((c :: rest).take bs).map (processOne gen gen2) ++
      translateChunksFuel gen gen2 bs fuel ((c :: rest).drop bs)

/-- `_translate_chunks` (fuel is the chunk count, which always suffices for
a positive batch size; for batch size 0 both the source and the model return
an empty result list). -/
def translateChunks (gen gen2 : String → String) (bs : ℕ) (chunks : List String) : List String :=
  translateChunksFuel gen gen2 bs chunks.length chunks

/-- The length-sort key (`key=lambda x: len(x[1])`). -/
def lenLe (a b : ℕ × String) : Bool :=
  decide (a.2.length ≤ b.2.length)

/-- First-match association lookup (`result_map[idx]`; indices are unique). -/
def lookupIdx (i : ℕ) : List (ℕ × String) → Option String
  | [] => none
  | (k, v) :: rest => if k = i then some v else lookupIdx i rest

/-- `translate_service.translate_batch` over the oracles: classify each
text, batch-translate the flat Arabic segments sorted by length, scatter the
results back to their original indices, and rebuild each text. -/
def translate_batch (gen gen2 : String → String) (texts : List String)
    (batch_size : ℕ) : List String :=
  if texts = [] then []
  else
    let opsFlat := mkOps texts
    let sortedPairs := sortBy lenLe opsFlat.2.enum
    let sortedResults := translateChunks gen gen2 batch_size (sortedPairs.map Prod.snd)
    let resultMap := (sortedPairs.map Prod.fst).zip sortedResults
    let translated := (List.range opsFlat.2.length).map fun i => (lookupIdx i resultMap).getD ""
    opsFlat.1.map (renderText translated)

/-- The per-input rendering of `translate_batch`: what the pipeline computes
for one input text, stated without the batching machinery. -/
def translateOne (gen gen2 : String → String) (text : String) : String :=
  if text = "" ∨ pyStrip text = "" then ""
  else if ¬ hasArabicFull text then text
  else if pureNumeric text then translitText text
  else if ¬ is_translatable text then text
  else
    String.intercalate "\n"
      ((splitLines (collapseSpaceTab (pyStrip text))).map fun line =>
        if pyStrip line = "" then ""
        else String.join ((lineTokens line).map fun tok =>
          if hasArabicFull tok then processOne gen gen2 tok else tok))

/-- The translated flat list agrees with `processOne` of the given local
segment slice at offset `start` (the reconstruction invariant of
`translate_batch`). -/
def SegOK (gen gen2 : String → String) (L : List String) (start : ℕ)
    (segs : List String) : Prop :=
  ∀ j, j < segs.length → L.getD (start + j) "" = processOne gen gen2 (segs.getD j "")

/-! ## Renderer/orchestrator model (`pdf_translation_service.py`)

`translate_pdf_inplace` is modelled from the point where the host has
produced, per page, the found tables (with their cell rectangles and cell
text) and the collected Arabic text blocks; `translate_to_english` is an
oracle `tr`, and the host's `insert_textbox` return value (the unfitted
remainder) is an oracle `fit`.  The operations the code issues to the host
are recorded explicitly so that the cover mechanism is observable. -/

/-- An axis-aligned rectangle. -/
structure Rect where
  x0 : ℚ
  y0 : ℚ
  x1 : ℚ
  y1 : ℚ
deriving DecidableEq, Repr

/-- The operations issued to the PDF host. `drawRectFill` is
`new_shape/draw_rect/finish(fill=white)/commit` (an opaque overlay);
`redactArea` is the host's content-removing redaction
(`add_redact_annot` + `apply_redactions`), which the source never calls. -/
inductive PageOp where
  | drawRectFill (r : Rect)
  | insertTextbox (r : Rect) (text : String) (fontsize : ℚ)
  | redactArea (r : Rect)
deriving DecidableEq, Repr

/-- An extractable text run of the original page content. -/
structure TextRun where
  text : String
  bbox : Rect
deriving DecidableEq, Repr

/-- The page's extractable content: original runs plus inserted text. -/
structure PageState where
  runs : List TextRun
  inserted : List String
deriving DecidableEq, Repr

/-- Rectangle intersection (open overlap). -/
def rectIntersects (a b : Rect) : Prop :=
  a.x0 < b.x1 ∧ b.x0 < a.x1 ∧ a.y0 < b.y1 ∧ b.y0 < a.y1

instance (a b : Rect) : Decidable (rectIntersects a b) := by
  unfold rectIntersects; infer_instance

/-- Host semantics of one operation on the extractable content: a filled
overlay rectangle changes nothing in the text layer, a redaction removes the
runs it intersects, a textbox insertion adds extractable text. -/
def applyOp (p : PageState) : PageOp → PageState
  | PageOp.drawRectFill _ => p
  | PageOp.insertTextbox _ t _ => { p with inserted := p.inserted ++ [t] }
  | PageOp.redactArea r =>
    { p with runs := filterP (fun run => ¬ rectIntersects run.bbox r) p.runs }

/-- Apply a list of host operations. -/
def applyOps (p : PageState) (ops : List PageOp) : PageState :=
  ops.foldl applyOp p

/-- Text extraction on the output page. -/
def extractTexts (p : PageState) : List String :=
  (p.runs.map TextRun.text) ++ p.inserted

/-- A collected Arabic text block. -/
structure Block where
  text : String
  bbox : Rect
  font_size : ℚ
deriving DecidableEq, Repr

/-- A table cell rectangle with the text the host extracts from it. -/
structure TableCell where
  rect : Rect
  text : String
deriving DecidableEq, Repr

/-- One table found by `page.find_tables()`. -/
structure TableF where
  bbox : Rect
  cells : List TableCell
deriving DecidableEq, Repr

/-- One page: the tables found, the Arabic blocks collected outside them,
and the extractable content. -/
structure PageData where
  tables : List TableF
  blocks : List Block
  state : PageState
deriving DecidableEq, Repr

/-- The cover rectangle: the bbox padded by 1 unit on every side. -/
def coverRect (r : Rect) : Rect :=
  { x0 := r.x0 - 1, y0 := r.y0 - 1, x1 := r.x1 + 1, y1 := r.y1 + 1 }

/-- The `while remaining < 0 and fontsize > floor` shrink-and-redraw loop
(fuelled by the number of half-point decrements down to the floor). -/
def resizeOps (fit : Rect → String → ℚ → ℚ) (rect cover : Rect) (t : String)
    (floor : ℚ) : ℕ → ℚ → List PageOp
  | 0, _ => []
  | fuel + 1, size =>
    if fit rect t size < 0 ∧ floor < size then
      PageOp.drawRectFill cover :: PageOp.insertTextbox rect t (size - 1/2) ::
        resizeOps fit rect cover t floor fuel (size - 1/2)
  else []

/-- Fuel that always outlasts the shrink loop. -/
def resizeFuel (size floor : ℚ) : ℕ :=
  (((size - floor) * 2).ceil).toNat + 1

/-- The numeric-guard pattern `^[\d\s\.,\-%$€£/]+$` of the table-cell
phase. -/
def cellNumeric (s : String) : Bool :=
  !s.data.isEmpty && s.data.all fun c =>
    pyIsDigit c || pyIsSpace c || c = '.' || c = ',' || c = '-' || c = '%' ||
    c = '$' || c = '€' || c = '£' || c = '/'

/-- The host operations and accumulated texts of one table cell: cover with
a white rectangle, insert at size 8, shrink to the floor of 4. -/
def processCellOps (tr : String → String) (fit : Rect → String → ℚ → ℚ)
    (cell : TableCell) : List PageOp × List String :=
  let cellText := pyStrip cell.text
  if cellText = "" then ([], [])
  else if ¬ hasArabic606 cellText then ([], [])
  else
    let norm := normalize_arabic_numerals cellText
    let translated := if cellNumeric norm then norm else tr norm
    if translated = "" then ([], [])
    else
      let cover := coverRect cell.rect
      (PageOp.drawRectFill cover :: PageOp.insertTextbox cell.rect translated 8 ::
        (if fit cell.rect translated 8 < 0 then
          resizeOps fit cell.rect cover translated 4 (resizeFuel 8 4) 8
        else []),
       [translated])

/-- The host operations of one replaced text block: cover with a white
rectangle, insert at the block's font size, shrink to the floor of 6. -/
def renderBlockOps (fit : Rect → String → ℚ → ℚ) (b : Block)
    (translated : String) : List PageOp :=
  let cover := coverRect b.bbox
  PageOp.drawRectFill cover :: PageOp.insertTextbox b.bbox translated b.font_size ::
    (if fit b.bbox translated b.font_size < 0 then
      resizeOps fit b.bbox cover translated 6 (resizeFuel b.font_size 6) b.font_size
    else [])

/-- A value of the duck-typed statistics dictionary. -/
inductive StatVal where
  | int (n : ℕ)
  | str (s : String)
  | strList (l : List String)
deriving DecidableEq, Repr

/-- The statistics dictionary (insertion-ordered key/value pairs). -/
abbrev Stats := List (String × StatVal)

/-- Dictionary lookup. -/
def statsGet : Stats → String → Option StatVal
  | [], _ => none
  | (k0, v0) :: rest, k => if k0 = k then some v0 else statsGet rest k

/-- Dictionary assignment (updates in place, appends when absent). -/
def statsSet : Stats → String → StatVal → Stats
  | [], k, v => [(k, v)]
  | (k0, v0) :: rest, k, v =>
    if k0 = k then (k0, v) :: rest else (k0, v0) :: statsSet rest k v

/-- `del stats[k]`. -/
def statsDel (stats : Stats) (k : String) : Stats :=
  stats.filter fun p => p.1 ≠ k

/-- Integer field read (fields are always present when read). -/
def statsGetInt (stats : Stats) (k : String) : ℕ :=
  match statsGet stats k with
  | some (StatVal.int n) => n
  | _ => 0

/-- `stats['full_translated_text'].append(t)`. -/
def statsAppendText (stats : Stats) (t : String) : Stats :=
  match statsGet stats "full_translated_text" with
  | some (StatVal.strList l) => statsSet stats "full_translated_text" (StatVal.strList (l ++ [t]))
  | _ => stats

/-- Processing of one table cell against the page state and statistics. -/
def doCell (tr : String → String) (fit : Rect → String → ℚ → ℚ)
    (acc : PageState × Stats) (cell : TableCell) : PageState × Stats :=
  let r := processCellOps tr fit cell
  (applyOps acc.1 r.1, r.2.foldl statsAppendText acc.2)

/-- The table phase of one page: process every cell of every found table,
then add `len(tables)` to `tables_translated` (under the `if tables:` guard). -/
def doTablePhase (tr : String → String) (fit : Rect → String → ℚ → ℚ)
    (pg : PageData) (acc : PageState × Stats) : PageState × Stats :=
  if pg.tables = [] then acc
  else
    let after := (pg.tables.flatMap fun t => t.cells).foldl (doCell tr fit) acc
    (after.1,
     statsSet after.2 "tables_translated"
       (StatVal.int (statsGetInt after.2 "tables_translated" + pg.tables.length)))

/-- Processing of one text block: skip tiny boxes, translate the
numeral-normalized text, and on a nonempty Arabic-free result cover the
area, insert the translation, and update the statistics. -/
def doBlock (tr : String → String) (fit : Rect → String → ℚ → ℚ)
    (acc : PageState × Stats) (b : Block) : PageState × Stats :=
  if b.bbox.x1 - b.bbox.x0 < 5 ∨ b.bbox.y1 - b.bbox.y0 < 5 then acc
  else
    let translated := tr (normalize_arabic_numerals b.text)
    if translated ≠ "" ∧ ¬ hasArabic606 translated then
      let st2 := statsAppendText acc.2 translated
      (applyOps acc.1 (renderBlockOps fit b translated),
       statsSet st2 "text_blocks_translated"
         (StatVal.int (statsGetInt st2 "text_blocks_translated" + 1)))
    else acc

/-- `translate_pdf_inplace` over the oracles: the final statistics
dictionary and the per-page output content. -/
def translate_pdf_inplace (tr : String → String) (fit : Rect → String → ℚ → ℚ)
    (doc : List PageData) : Stats × List PageState :=
  let stats0 : Stats :=
    [("pages_processed", StatVal.int doc.length),
     ("text_blocks_translated", StatVal.int 0),
     ("tables_translated", StatVal.int 0),
     ("full_translated_text", StatVal.strList [])]
  let final := doc.foldl
    (fun acc pg =>
      let r1 := doTablePhase tr fit pg (pg.state, acc.1)
      let r2 := pg.blocks.foldl (doBlock tr fit) r1
      (r2.2, acc.2 ++ [r2.1]))
    (stats0, ([] : List PageState))
  let texts := match statsGet final.1 "full_translated_text" with
    | some (StatVal.strList l) => l
    | _ => []
  let stats1 := statsSet final.1 "full_text_content"
    (StatVal.str (String.intercalate "\n\n" texts))
  (statsDel stats1 "full_translated_text", final.2)

/-! ## Concrete instances for the geometry claims -/

/-- Concrete word set for claim C5: three boxes inside `[0, 100]` whose
second qualifying gap center (90.5) lies within 18 units of the region's
right edge, so the right edge is dropped from the boundary list. -/
def c5words : List Word :=
  [{ text := "w1", x0 := 0, top := 10, x1 := 50, bottom := 20 },
   { text := "w2", x0 := 80, top := 10, x1 := 82, bottom := 20 },
   { text := "w3", x0 := 99, top := 10, x1 := 100, bottom := 20 }]

/-- The region for the claim C5 counterexample. -/
def c5region : Region :=
  { x0 := 0, y0 := 0, x1 := 100, y1 := 100, rows := [], confidence := none }

/-- A word in histogram bin 12 of the split examples (center 125, top 10). -/
def wA : Word := { text := "a", x0 := 124, top := 10, x1 := 126, bottom := 18 }

/-- A word in histogram bin 32 with a different baseline (top 50). -/
def wB50 : Word := { text := "b", x0 := 324, top := 50, x1 := 326, bottom := 58 }

/-- A word in histogram bin 32 sharing `wA`'s baseline (top 10). -/
def wB10 : Word := { text := "b", x0 := 324, top := 10, x1 := 326, bottom := 18 }

/-- Region for the claim C7 counterexample: width 600, one valley centered
at 225, rows on different baselines, so the splitter keeps only the right
subregion (the left one is narrower than 250). -/
def ce7region : Region :=
  { x0 := 0, y0 := 0, x1 := 600, y1 := 100, rows := [[wA], [wB50]], confidence := none }

/-- Region for the claim C6 witness: the same geometry with both words on
one shared baseline, so the row-alignment veto fires. -/
def w6region : Region :=
  { x0 := 0, y0 := 0, x1 := 600, y1 := 100, rows := [[wA, wB10]], confidence := none }

/-- A region narrower than 300 units (claim C7's narrow-region clause). -/
def narrowRegion : Region :=
  { x0 := 0, y0 := 0, x1 := 100, y1 := 100, rows := [[wA]], confidence := none }

/-- The histogram of the split examples: one word in bin 12, one in bin 32. -/
def splitCounts : List ℕ :=
  [0, 0, 0, 0, 0, 0, 0, 0, 0, 0, 0, 0, 1, 0, 0, 0, 0, 0, 0, 0,
   0, 0, 0, 0, 0, 0, 0, 0, 0, 0, 0, 0, 1, 0, 0, 0, 0, 0, 0, 0,
   0, 0, 0, 0, 0, 0, 0, 0, 0, 0, 0, 0, 0, 0, 0, 0, 0, 0, 0, 0]

/-- The valley bins of the split examples: every bin except 12 and 32. -/
def splitValleys : List ℕ :=
  [0, 1, 2, 3, 4, 5, 6, 7, 8, 9, 10, 11, 13, 14, 15, 16, 17, 18, 19, 20,
   21, 22, 23, 24, 25, 26, 27, 28, 29, 30, 31, 33, 34, 35, 36, 37, 38, 39,
   40, 41, 42, 43, 44, 45, 46, 47, 48, 49, 50, 51, 52, 53, 54, 55, 56, 57, 58, 59]

/-- The single subregion that the splitter returns on `ce7region`. -/
def ce7sub : Region :=
  { x0 := 225, y0 := 0, x1 := 600, y1 := 100, rows := [[wB50]], confidence := some (4/5) }

/-- A constant model oracle used by the concrete translation examples. -/
def genX : String → String := fun _ => "XYZQQQ"

/-- The claim C1 example string `"١٢٣٬٤٥٦"`: Arabic-Indic digits separated
by U+066C ARABIC THOUSANDS SEPARATOR. -/
def numSep066C : String := "١٢٣٬٤٥٦"

/-- The same figure with an ASCII comma separator. -/
def numSepComma : String := "١٢٣,٤٥٦"

/-- The end-to-end scenario block: the line `"مرحبا"` at bbox
`(100, 100, 200, 120)`. -/
def helloBlock : Block :=
  { text := "مرحبا", bbox := { x0 := 100, y0 := 100, x1 := 200, y1 := 120 }, font_size := 12 }

/-- The original text run of that block. -/
def helloRun : TextRun :=
  { text := "مرحبا", bbox := { x0 := 100, y0 := 100, x1 := 200, y1 := 120 } }

/-- A one-page document containing only the `"مرحبا"` block. -/
def helloDoc : List PageData :=
  [{ tables := [], blocks := [helloBlock],
     state := { runs := [helloRun], inserted := [] } }]

/-- A fitting oracle under which every insertion fits. -/
def fitAll : Rect → String → ℚ → ℚ := fun _ _ _ => 0

/-- Words for the claim C8 witness: an Arabic token and a numeric token on
one row. -/
def c8words : List Word :=
  [{ text := "مرحبا", x0 := 10, top := 10, x1 := 40, bottom := 20 },
   { text := "42", x0 := 60, top := 11, x1 := 80, bottom := 21 }]

/-- Column boundaries for the claim C8 witness. -/
def c8bounds : List ℚ := [0, 50, 100]

/-- The single word of the claim C10 cell-storage witness. -/
def c10word : Word :=
  { text := "مرحبا", x0 := 10, top := 10, x1 := 40, bottom := 20 }

/-! ## Sorting lemmas -/

@[simp]
theorem filterP_nil (p : α → Prop) [DecidablePred p] : filterP p [] = [] := rfl

@[simp]
theorem filterP_cons (p : α → Prop) [DecidablePred p] (a : α) (l : List α) :
    filterP p (a :: l) = if p a then a :: filterP p l else filterP p l := by
  by_cases h : p a <;> simp [filterP, List.filter, h]

@[simp]
theorem anyP_nil (p : α → Prop) [DecidablePred p] : anyP p [] ↔ False := by
  simp [anyP]

@[simp]
theorem anyP_cons (p : α → Prop) [DecidablePred p] (a : α) (l : List α) :
    anyP p (a :: l) ↔ p a ∨ anyP p l := by
  simp [anyP]


theorem insertSorted_perm (le : α → α → Bool) (x : α) (l : List α) :
    List.Perm (insertSorted le x l) (x :: l) := by
  induction l with
  | nil => exact List.Perm.refl _
  | cons y ys ih =>
    by_cases h : le x y
    · rw [insertSorted, if_pos h]
    · rw [insertSorted, if_neg h]
      exact (ih.cons y).trans (List.Perm.swap x y ys)

theorem sortBy_perm (le : α → α → Bool) (l : List α) : List.Perm (sortBy le l) l := by
  induction l with
  | nil => exact List.Perm.refl _
  | cons a l ih =>
    exact (insertSorted_perm le a (sortBy le l)).trans (ih.cons a)

theorem mem_sortBy {le : α → α → Bool} {x : α} {l : List α} :
    x ∈ sortBy le l ↔ x ∈ l :=
  (sortBy_perm le l).mem_iff

theorem sortBy_eq_self {le : α → α → Bool} {l : List α}
    (h : l.Pairwise (fun a b => le a b = true)) : sortBy le l = l := by
  induction l with
  | nil => rfl
  | cons a l ih =>
    have hl : sortBy le l = l := ih (List.Pairwise.sublist (List.sublist_cons_self a l) h)
    show insertSorted le a (sortBy le l) = a :: l
    rw [hl]
    cases l with
    | nil => rfl
    | cons b bs =>
      have hab : le a b = true := (List.pairwise_cons.mp h).1 b (by simp)
      simp [insertSorted, hab]

/-! ## Claim C5: `_detect_columns` output shape -/

theorem filterCloseAux_chain (last : ℚ) (l : List ℚ) :
    List.Chain (fun a b => 18 < b - a) last (filterCloseAux last l) := by
  induction l generalizing last with
  | nil => exact List.Chain.nil
  | cons c cs ih =>
    by_cases h : 18 < c - last
    · rw [filterCloseAux, if_pos h]
      exact List.Chain.cons h (ih c)
    · rw [filterCloseAux, if_neg h]
      exact ih last

theorem filterCloseAux_subset (last : ℚ) (l : List ℚ) :
    ∀ x ∈ filterCloseAux last l, x ∈ l := by
  induction l generalizing last with
  | nil => simp [filterCloseAux]
  | cons c cs ih =>
    intro x hx
    by_cases h : 18 < c - last
    · simp only [filterCloseAux, if_pos h] at hx
      rcases List.mem_cons.mp hx with rfl | hx
      · simp
      · exact List.mem_cons_of_mem _ (ih c x hx)
    · simp only [filterCloseAux, if_neg h] at hx
      exact List.mem_cons_of_mem _ (ih last x hx)

theorem mem_sortedSet {x : ℚ} {l : List ℚ} : x ∈ sortedSet l ↔ x ∈ l := by
  rw [sortedSet, List.mem_dedup, qsort, mem_sortBy]

theorem columnGaps_mem_bound {words : List Word} {xs : List ℚ} {lo hi : ℚ}
    (hxs : ∀ x ∈ xs, lo ≤ x ∧ x ≤ hi) :
    ∀ g ∈ columnGaps words xs, lo ≤ g ∧ g ≤ hi := by
  intro g hg
  rw [columnGaps, List.mem_filterMap] at hg
  obtain ⟨p, hp, hsome⟩ := hg
  by_cases h15 : 15 < p.2 - p.1
  · simp only [if_pos h15] at hsome
    by_cases hcross : filterP (wordCrosses ((p.1 + p.2) / 2)) words = []
    · simp only [if_pos hcross, Option.some.injEq] at hsome
      subst hsome
      have h1 := hxs p.1 (List.of_mem_zip hp).1
      have h2 := hxs p.2 (List.mem_of_mem_tail (List.of_mem_zip hp).2)
      constructor <;> [linarith [h1.1, h2.1]; linarith [h1.2, h2.2]]
    · simp [if_neg hcross] at hsome
  · simp [if_neg h15] at hsome

theorem chain_spaced_pairwise {a : ℚ} {l : List ℚ}
    (h : List.Chain (fun p q => 18 < q - p) a l) :
    (a :: l).Pairwise (fun p q => 18 < q - p) := by
  haveI : IsTrans ℚ (fun p q => 18 < q - p) :=
    ⟨fun p q r h1 h2 => show 18 < r - p by
      have hpq : 18 < q - p := h1
      have hqr : 18 < r - q := h2
      linarith⟩
  exact List.chain_iff_pairwise.mp h

theorem xs_mem_bound {words : List Word} {region : Region}
    (hw : ∀ w ∈ words, region.x0 ≤ w.x0 ∧ w.x0 ≤ w.x1 ∧ w.x1 ≤ region.x1) :
    ∀ x ∈ sortedSet (words.flatMap fun w => [w.x0, w.x1]),
      region.x0 ≤ x ∧ x ≤ region.x1 := by
  intro x hx
  rw [mem_sortedSet, List.mem_flatMap] at hx
  obtain ⟨w, hwmem, hxw⟩ := hx
  obtain ⟨h1, h2, h3⟩ := hw w hwmem
  rcases List.mem_cons.mp hxw with h | h
  · subst h; exact ⟨h1, by linarith⟩
  · rcases List.mem_singleton.mp h with rfl
    exact ⟨by linarith, h3⟩

/-- Claim C5, amended: on a region wider than the 18-unit minimum spacing and
a word set confined to it, `_detect_columns` returns a list that starts at the
region's `x0`, is strictly increasing with consecutive boundaries more than
18 units apart, and stays within `[x0, x1]` (the last element need not equal
`x1`: `x1` is dropped when it comes within 18 units of the last internal
boundary). -/
theorem detect_columns_props (words : List Word) (region : Region)
    (hw : ∀ w ∈ words, region.x0 ≤ w.x0 ∧ w.x0 ≤ w.x1 ∧ w.x1 ≤ region.x1)
    (hwid : 18 < region.x1 - region.x0) :
    (detect_columns words region).head? = some region.x0 ∧
    List.Chain' (fun a b => 18 < b - a) (detect_columns words region) ∧
    ∀ x ∈ detect_columns words region, region.x0 ≤ x ∧ x ≤ region.x1 := by
  by_cases hnil : words = []
  · subst hnil
    rw [detect_columns, if_pos rfl]
    refine ⟨rfl, ?_, ?_⟩
    · exact List.Chain.cons hwid List.Chain.nil
    · intro x hx
      rcases List.mem_cons.mp hx with rfl | hx
      · exact ⟨le_refl _, by linarith⟩
      · rcases List.mem_singleton.mp hx with rfl
        exact ⟨by linarith, le_refl _⟩
  · rw [detect_columns, if_neg hnil]
    set xs := sortedSet (words.flatMap fun w => [w.x0, w.x1]) with hxs
    set L := columnGaps words xs ++ [region.x1] with hL
    set F := filterCloseAux region.x0 L with hF
    have hchain : List.Chain (fun p q => 18 < q - p) region.x0 F :=
      filterCloseAux_chain region.x0 L
    have hpair : (region.x0 :: F).Pairwise (fun p q => 18 < q - p) :=
      chain_spaced_pairwise hchain
    have hsorted : (region.x0 :: F).Pairwise (fun p q => decide (p ≤ q) = true) :=
      hpair.imp fun h => decide_eq_true (by linarith)
    have hqsort : qsort (region.x0 :: F) = region.x0 :: F :=
      sortBy_eq_self hsorted
    rw [hqsort]
    refine ⟨rfl, hchain, ?_⟩
    intro x hx
    rcases List.mem_cons.mp hx with rfl | hx
    · exact ⟨le_refl _, by linarith⟩
    · have hxL : x ∈ L := filterCloseAux_subset region.x0 L x hx
      rcases List.mem_append.mp hxL with hg | hone
      · exact columnGaps_mem_bound (xs_mem_bound hw) x hg
      · rcases List.mem_singleton.mp hone with rfl
        exact ⟨by linarith, le_refl _⟩

theorem c5_eval : detect_columns c5words c5region = [0, 65, 181/2] := by
  norm_num [detect_columns, sortedSet, qsort, sortBy, insertSorted, columnGaps, wordCrosses,
    filterCloseAux, c5words, c5region, List.dedup, List.flatMap, List.zip, List.zipWith,
    List.filterMap, List.pwFilter, List.cons_ne_nil]

/-- Claim C5, counterexample: on the region `[0, 100]` with the word set
`c5words`, `_detect_columns` keeps the internal boundary 90.5 and then drops
the region's right edge (100 − 90.5 ≤ 18), so the returned list does not end
at the region's `x1`. -/
theorem detect_columns_claim_ce :
    ¬ ((detect_columns c5words c5region).head? = some c5region.x0 ∧
       (detect_columns c5words c5region).getLast? = some c5region.x1) := by
  rw [c5_eval]
  rintro ⟨h1, h2⟩
  rw [show c5region.x1 = 100 from rfl] at h2
  simp only [List.getLast?, Option.some.injEq] at h2
  norm_num at h2

/-- Witness for `detect_columns_props` at the concrete C5 region. -/
theorem detect_columns_props_witness :
    (detect_columns c5words c5region).head? = some c5region.x0 ∧
    List.Chain' (fun a b => 18 < b - a) (detect_columns c5words c5region) ∧
    ∀ x ∈ detect_columns c5words c5region, c5region.x0 ≤ x ∧ x ≤ c5region.x1 :=
  detect_columns_props c5words c5region
    (by intro w hwm; fin_cases hwm <;> norm_num [c5region])
    (by norm_num [c5region])

/-! ## Claims C6 and C7: `_split_region_horizontally` -/

theorem filterP_eq_self {p : α → Prop} [DecidablePred p] {l : List α}
    (h : ∀ a ∈ l, p a) : filterP p l = l := by
  induction l with
  | nil => rfl
  | cons a l ih =>
    rw [filterP_cons, if_pos (h a (by simp))]
    rw [ih fun b hb => h b (List.mem_cons_of_mem a hb)]

theorem exactMatches_all {lys rys : List ℚ}
    (h : ∀ ly ∈ lys, ∃ ry ∈ rys, |ly - ry| ≤ 2) :
    exactMatches lys rys = lys.length := by
  rw [exactMatches, filterP_eq_self]
  intro ly hly
  exact h ly hly

/-- Claim C6: a region whose rows are perfectly aligned across the chosen
split candidate (every left row y-position has a right row y-position within
2.0) and balanced (row-count balance above 0.60) is returned unchanged. -/
theorem split_region_aligned_single (region : Region) (ws : List Word) (minGapRatio : ℚ)
    (halign : ∀ b, sdhBestSplit region minGapRatio = some b →
      ((∀ ly ∈ leftYPositions (regionFlatWords region) b,
          ∃ ry ∈ rightYPositions (regionFlatWords region) b, |ly - ry| ≤ 2) ∧
        (3/5 : ℚ) < rowCountRatio (regionFlatWords region) b)) :
    split_region_horizontally region ws minGapRatio = [region] := by
  rw [split_region_horizontally]
  cases hbs : sdhBestSplit region minGapRatio with
  | none => rfl
  | some b =>
    obtain ⟨hall, hbal⟩ := halign b hbs
    rw [Option.elim_some]
    set lys := leftYPositions (regionFlatWords region) b with hlys
    set rys := rightYPositions (regionFlatWords region) b with hrys
    have hsm : 1 ≤ min lys.length rys.length := by
      by_contra hc
      have h0 : min lys.length rys.length = 0 := by omega
      rw [rowCountRatio, ← hlys, ← hrys, h0] at hbal
      norm_num at hbal
    have hemr : (4/5 : ℚ) < exactMatchRatio (regionFlatWords region) b := by
      rw [exactMatchRatio, ← hlys, ← hrys, exactMatches_all hall,
        max_eq_right hsm]
      have hminpos : (0 : ℚ) < (min lys.length rys.length : ℕ) := by
        exact_mod_cast hsm
      have hminle : ((min lys.length rys.length : ℕ) : ℚ) ≤ (lys.length : ℚ) := by
        exact_mod_cast min_le_left lys.length rys.length
      have hone : (1 : ℚ) ≤ (lys.length : ℚ) / ((min lys.length rys.length : ℕ) : ℚ) :=
        (le_div_iff₀ hminpos).mpr (by linarith)
      linarith
    rw [if_pos ⟨hemr, hbal⟩]

theorem split_hist50 : histCounts [wA, wB50] 0 600 10 = splitCounts := by
  norm_num [histCounts, wA, wB50, pyInt, List.foldl]
  decide

theorem split_hist10 : histCounts [wA, wB10] 0 600 10 = splitCounts := by
  norm_num [histCounts, wA, wB10, pyInt, List.foldl]
  decide

theorem split_vb : sdhValleyBins splitCounts (1 / 10) = splitValleys := by
  norm_num [sdhValleyBins, splitCounts, List.range, List.range.loop]
  decide

set_option maxRecDepth 2000 in
theorem split_gv : groupValleys 0 10 splitValleys = [60, 225, 465] := by
  norm_num [groupValleys, groupValleysAux, splitValleys]

theorem split_am : argminAbs 300 [60, 225, 465] = 225 := by
  norm_num [argminAbs, argminAbsAux]

theorem ce7_flat : regionFlatWords ce7region = [wA, wB50] := by
  norm_num [regionFlatWords, ce7region, List.flatMap]

theorem w6_flat : regionFlatWords w6region = [wA, wB10] := by
  norm_num [regionFlatWords, w6region, List.flatMap]

set_option maxRecDepth 2000 in
theorem ce7_best : sdhBestSplit ce7region (1/10) = some 225 := by
  have hx0 : ce7region.x0 = 0 := rfl
  have hx1 : ce7region.x1 = 600 := rfl
  have hmax : splitCounts.foldl max 0 = 1 := by decide
  have htake : listMax (splitCounts.take 30) = 1 := by decide
  have hdrop : listMax (splitCounts.drop 30) = 1 := by decide
  have hctr : listMax ((splitCounts.drop 29).take 3) = 0 := by decide
  have hvne : splitValleys ≠ [] := by decide
  have h22 : splitCounts[(22 : ℕ)]?.getD 0 = 0 := by decide
  have h22n : (22 : ℤ).toNat = 22 := rfl
  norm_num [sdhBestSplit, ce7_flat, hx0, hx1, split_hist50, hmax, htake, hdrop, hctr,
    hvne, split_vb, split_gv, split_am, pyInt]
  norm_num [h22n, h22]
  exact ⟨List.cons_ne_nil _ _, List.cons_ne_nil _ _⟩

set_option maxRecDepth 2000 in
theorem w6_best : sdhBestSplit w6region (1/10) = some 225 := by
  have hx0 : w6region.x0 = 0 := rfl
  have hx1 : w6region.x1 = 600 := rfl
  have hmax : splitCounts.foldl max 0 = 1 := by decide
  have htake : listMax (splitCounts.take 30) = 1 := by decide
  have hdrop : listMax (splitCounts.drop 30) = 1 := by decide
  have hctr : listMax ((splitCounts.drop 29).take 3) = 0 := by decide
  have hvne : splitValleys ≠ [] := by decide
  have h22 : splitCounts[(22 : ℕ)]?.getD 0 = 0 := by decide
  have h22n : (22 : ℤ).toNat = 22 := rfl
  norm_num [sdhBestSplit, w6_flat, hx0, hx1, split_hist10, hmax, htake, hdrop, hctr,
    hvne, split_vb, split_gv, split_am, pyInt]
  norm_num [h22n, h22]
  exact ⟨List.cons_ne_nil _ _, List.cons_ne_nil _ _⟩

/-- Witness for `split_region_aligned_single` at the concrete aligned
region. -/
theorem split_region_aligned_single_witness :
    split_region_horizontally w6region [] (1/10) = [w6region] :=
  split_region_aligned_single w6region [] (1/10) (by
    intro b hb
    rw [w6_best] at hb
    injection hb with hb
    subst hb
    have hl : leftYPositions (regionFlatWords w6region) 225 = [10] := by
      norm_num [leftYPositions, w6_flat, wA, wB10, round1, roundHalfEven,
        sortedSet, qsort, sortBy, insertSorted, List.dedup, List.pwFilter]
    have hr : rightYPositions (regionFlatWords w6region) 225 = [10] := by
      norm_num [rightYPositions, w6_flat, wA, wB10, round1, roundHalfEven,
        sortedSet, qsort, sortBy, insertSorted, List.dedup, List.pwFilter]
    constructor
    · intro ly hly
      rw [hl] at hly
      rcases List.mem_singleton.mp hly with rfl
      exact ⟨10, by rw [hr]; exact List.mem_singleton.mpr rfl, by norm_num⟩
    · rw [rowCountRatio, hl, hr]
      norm_num)

theorem subregionFor_some {region : Region} {a c : ℚ} {r : Region}
    (h : subregionFor region a c = some r) : 250 ≤ r.x1 - r.x0 := by
  rw [subregionFor] at h
  by_cases h1 : c - a < 250
  · rw [if_pos h1] at h
    exact absurd h (by simp)
  · rw [if_neg h1] at h
    simp only at h
    by_cases h2 : (region.rows.filterMap fun row =>
        if filterP (fun w => a < w.x1 ∧ w.x0 < c) row = [] then none
        else some (filterP (fun w => a < w.x1 ∧ w.x0 < c) row)) = []
    · rw [if_pos h2] at h
      exact absurd h (by simp)
    · rw [if_neg h2] at h
      injection h with h
      subst h
      show (250 : ℚ) ≤ c - a
      push_neg at h1
      exact h1

theorem sdhBestSplit_none_of_narrow {region : Region} (minGapRatio : ℚ)
    (h : region.x1 - region.x0 < 300) : sdhBestSplit region minGapRatio = none := by
  simp only [sdhBestSplit]
  split_ifs <;> rfl

/-- Claim C7, amended: a region narrower than 300 units is always returned
unchanged, and in general the splitter returns either the input region
unchanged or one or two kept subregions, each of post-split width at least
250 units. -/
theorem split_region_shape (region : Region) (ws : List Word) (minGapRatio : ℚ) :
    (region.x1 - region.x0 < 300 →
      split_region_horizontally region ws minGapRatio = [region]) ∧
    (split_region_horizontally region ws minGapRatio = [region] ∨
      (1 ≤ (split_region_horizontally region ws minGapRatio).length ∧
        (split_region_horizontally region ws minGapRatio).length ≤ 2 ∧
        ∀ r ∈ split_region_horizontally region ws minGapRatio, 250 ≤ r.x1 - r.x0)) := by
  constructor
  · intro h
    rw [split_region_horizontally, sdhBestSplit_none_of_narrow minGapRatio h]
    rfl
  · rw [split_region_horizontally]
    cases hbs : sdhBestSplit region minGapRatio with
    | none => left; rfl
    | some b =>
      rw [Option.elim_some]
      by_cases hcond : (4/5 : ℚ) < exactMatchRatio (regionFlatWords region) b ∧
          (3/5 : ℚ) < rowCountRatio (regionFlatWords region) b
      · left; rw [if_pos hcond]
      · rw [if_neg hcond]
        by_cases hsubs : sdhSubregions region b = []
        · left; rw [if_pos hsubs]
        · right
          rw [if_neg hsubs]
          refine ⟨List.length_pos.mpr hsubs, ?_, ?_⟩
          · rw [sdhSubregions]
            exact le_trans (List.length_filterMap_le _ _) (by simp)
          · intro r hr
            rw [sdhSubregions, List.mem_filterMap] at hr
            obtain ⟨p, _, hsome⟩ := hr
            exact subregionFor_some hsome

/-- Witness for `split_region_shape`: the narrow-region clause at a concrete
region of width 100. -/
theorem split_region_shape_witness :
    split_region_horizontally narrowRegion [] (1/10) = [narrowRegion] :=
  (split_region_shape narrowRegion [] (1/10)).1 (by norm_num [narrowRegion])

/-- Claim C7, counterexample: on `ce7region` the splitter returns exactly
one subregion (the 225-wide left side is dropped), which is neither the
input region unchanged nor a pair of subregions. -/
theorem split_region_claim_ce :
    ¬ (split_region_horizontally ce7region [] (1/10) = [ce7region] ∨
       (split_region_horizontally ce7region [] (1/10)).length = 2) := by
  have hl : leftYPositions (regionFlatWords ce7region) 225 = [10] := by
    norm_num [leftYPositions, ce7_flat, wA, wB50, round1, roundHalfEven,
      sortedSet, qsort, sortBy, insertSorted, List.dedup, List.pwFilter]
  have hr : rightYPositions (regionFlatWords ce7region) 225 = [50] := by
    norm_num [rightYPositions, ce7_flat, wA, wB50, round1, roundHalfEven,
      sortedSet, qsort, sortBy, insertSorted, List.dedup, List.pwFilter]
  have hratio : ¬ ((4/5 : ℚ) < exactMatchRatio (regionFlatWords ce7region) 225 ∧
      (3/5 : ℚ) < rowCountRatio (regionFlatWords ce7region) 225) := by
    rw [exactMatchRatio, hl, hr]
    norm_num [exactMatches]
  have hsubs : sdhSubregions ce7region 225 = [ce7sub] := by
    norm_num [sdhSubregions, subregionFor, ce7region, ce7sub, wA, wB50, List.filterMap]
  rw [split_region_horizontally, ce7_best, Option.elim_some, if_neg hratio,
    if_neg (by rw [hsubs]; exact List.cons_ne_nil _ _), hsubs]
  rintro (hcontra | hcontra)
  · have hx : ce7sub.x0 = ce7region.x0 := by rw [List.cons.injEq] at hcontra; rw [hcontra.1]
    norm_num [ce7sub, ce7region] at hx
  · norm_num at hcontra

/-! ## Claim C8: `words_to_table` row shape -/

theorem buildRow_fst_length (cb : List ℚ) (g : List Word) :
    (buildRow cb g).1.length = cb.length - 1 := by
  simp [buildRow]

theorem buildRow_snd_length (cb : List ℚ) (g : List Word) :
    (buildRow cb g).2.length = cb.length - 1 := by
  simp [buildRow]

theorem buildRow_layout_y (cb : List ℚ) (g : List Word) :
    ∀ cell ∈ (buildRow cb g).2,
      cell.y0 = (rowBoundsOf g).1 ∧ cell.y1 = (rowBoundsOf g).2 := by
  intro cell hcell
  simp only [buildRow, List.mem_map] at hcell
  obtain ⟨i, _, rfl⟩ := hcell
  exact ⟨rfl, rfl⟩

theorem buildRow_layout_x (cb : List ℚ) (g : List Word) (j : ℕ)
    (hj : j < (buildRow cb g).2.length) :
    ((buildRow cb g).2.getD j { text := "", x0 := 0, y0 := 0, x1 := 0, y1 := 0 }).x0 =
      cb.getD j 0 ∧
    ((buildRow cb g).2.getD j { text := "", x0 := 0, y0 := 0, x1 := 0, y1 := 0 }).x1 =
      cb.getD (j + 1) 0 := by
  rw [buildRow_snd_length] at hj
  simp [buildRow, List.getD_eq_getElem?_getD, List.getElem?_map, List.getElem?_range, hj]

/-- Claim C8: every emitted row has exactly `len(col_bounds) - 1` cells in
both outputs, no emitted row is entirely empty after text assembly, within a
row all cell layouts share one `y0`/`y1`, and the cell at column position
`j` spans exactly the adjacent column boundaries. -/
theorem words_to_table_rows (words : List Word) (col_bounds : List ℚ) (y_tolerance : ℚ) :
    ((words_to_table words col_bounds y_tolerance).1.length =
      (words_to_table words col_bounds y_tolerance).2.length) ∧
    (∀ tr ∈ (words_to_table words col_bounds y_tolerance).1,
      tr.length = col_bounds.length - 1 ∧ ∃ c ∈ tr, pyStrip c ≠ "") ∧
    (∀ lr ∈ (words_to_table words col_bounds y_tolerance).2,
      lr.length = col_bounds.length - 1 ∧
      (∃ y0 y1, ∀ cell ∈ lr, cell.y0 = y0 ∧ cell.y1 = y1) ∧
      ∀ j, j < lr.length →
        (lr.getD j { text := "", x0 := 0, y0 := 0, x1 := 0, y1 := 0 }).x0 =
          col_bounds.getD j 0 ∧
        (lr.getD j { text := "", x0 := 0, y0 := 0, x1 := 0, y1 := 0 }).x1 =
          col_bounds.getD (j + 1) 0) := by
  by_cases hw : words = []
  · rw [words_to_table, if_pos hw]
    exact ⟨rfl, by simp, by simp⟩
  · rw [words_to_table, if_neg hw]
    simp only
    refine ⟨by simp, ?_, ?_⟩
    · intro tr htr
      rw [List.mem_map] at htr
      obtain ⟨p, hpk, rfl⟩ := htr
      have hany := List.of_mem_filter hpk
      have hpmem := List.mem_of_mem_filter hpk
      rw [List.mem_map] at hpmem
      obtain ⟨g, _, rfl⟩ := hpmem
      refine ⟨buildRow_fst_length _ _, ?_⟩
      rw [List.any_eq_true] at hany
      obtain ⟨c, hc, hcs⟩ := hany
      exact ⟨c, hc, of_decide_eq_true hcs⟩
    · intro lr hlr
      rw [List.mem_map] at hlr
      obtain ⟨p, hpk, rfl⟩ := hlr
      have hpmem := List.mem_of_mem_filter hpk
      rw [List.mem_map] at hpmem
      obtain ⟨g, _, rfl⟩ := hpmem
      exact ⟨buildRow_snd_length _ _,
        ⟨(rowBoundsOf g).1, (rowBoundsOf g).2, buildRow_layout_y _ _⟩,
        fun j hj => buildRow_layout_x _ _ j hj⟩

theorem c8_eval : (words_to_table c8words c8bounds 8).1 = [["ابحرم", "42"]] := by
  have hc1 : cellTextOf [{ text := "مرحبا", x := 25, x0 := 10, x1 := 40 }] = "ابحرم" := by decide
  have hc2 : cellTextOf [{ text := "42", x := 70, x0 := 60, x1 := 80 }] = "42" := by decide
  have hs1 : pyStrip "مرحبا" = "مرحبا" := by decide
  have hs2 : pyStrip "42" = "42" := by decide
  have hcell0 : cellTextOf [] = "" := by decide
  have hne : pyStrip "ابحرم" ≠ "" := by decide
  norm_num [words_to_table, c8words, c8bounds, sortBy, insertSorted, wordKeyLe, round1,
    roundHalfEven, groupRows, groupRowsAux, buildRow, colTokens, assignTok, findCol,
    rowBoundsOf, hc1, hc2, hs1, hs2, hcell0, hne, List.range, List.range.loop,
    List.replicate, List.getD, List.get?, List.set]
  rw [if_neg (List.cons_ne_nil _ _)]

/-- Witness for `words_to_table_rows` at the concrete two-column row. -/
theorem words_to_table_rows_witness :
    (["ابحرم", "42"] : List String).length = c8bounds.length - 1 ∧
    ∃ c ∈ (["ابحرم", "42"] : List String), pyStrip c ≠ "" :=
  (words_to_table_rows c8words c8bounds 8).2.1 ["ابحرم", "42"]
    (by rw [c8_eval]; exact List.mem_singleton.mpr rfl)

/-! ## Claim C10: `fix_rtl_token` -/

theorem dropWhile_eq_cons_not (p : Char → Bool) (l : List Char) (a : Char) (t : List Char)
    (h : l.dropWhile p = a :: t) : p a = false := by
  induction l with
  | nil => simp [List.dropWhile] at h
  | cons c cs ih =>
    by_cases hc : p c
    · rw [List.dropWhile_cons, if_pos hc] at h
      exact ih h
    · rw [List.dropWhile_cons, if_neg hc] at h
      injection h with h1 _
      subst h1
      exact Bool.eq_false_iff.mpr hc

theorem stripChars_reverse (l : List Char) :
    stripChars (stripChars l).reverse = (stripChars l).reverse := by
  set A := l.dropWhile pyIsSpace with hA
  set B := A.reverse.dropWhile pyIsSpace with hB
  have h1 : B.dropWhile pyIsSpace = B := by
    rw [hB]
    exact List.dropWhile_idempotent _ _
  have h2 : B.reverse.dropWhile pyIsSpace = B.reverse := by
    cases hrv : B.reverse with
    | nil => rfl
    | cons r rs =>
      have hsplit : A.reverse.takeWhile pyIsSpace ++ B = A.reverse := by
        rw [hB]
        exact List.takeWhile_append_dropWhile _ _
      have hA2 : A = B.reverse ++ (A.reverse.takeWhile pyIsSpace).reverse := by
        conv_lhs => rw [← List.reverse_reverse A, ← hsplit]
        rw [List.reverse_append]
      have hBne : B.reverse ≠ [] := by rw [hrv]; exact List.cons_ne_nil _ _
      have hhead : A.head? = some r := by
        rw [hA2, List.head?_append_of_ne_nil _ hBne, hrv]
        rfl
      have hAr : ∃ t, A = r :: t := by
        cases hAv : A with
        | nil => rw [hAv] at hhead; cases hhead
        | cons a t =>
          rw [hAv] at hhead
          injection hhead with hh
          exact ⟨t, by rw [hh]⟩
      obtain ⟨t, hAt⟩ := hAr
      have hpr : pyIsSpace r = false := dropWhile_eq_cons_not pyIsSpace l r t (by rw [← hA, hAt])
      simp [List.dropWhile_cons, hpr]
  have hstrip : stripChars l = B.reverse := rfl
  have hBB : stripChars B = B := by
    show ((B.dropWhile pyIsSpace).reverse.dropWhile pyIsSpace).reverse = B
    rw [h1, h2, List.reverse_reverse]
  calc stripChars (stripChars l).reverse = stripChars B := by rw [hstrip, List.reverse_reverse]
    _ = B := hBB
    _ = (stripChars l).reverse := by rw [hstrip, List.reverse_reverse]

theorem fix_rtl_token_eq (t : String) :
    fix_rtl_token t =
      if has_arabic_letter t = true ∧ has_any_digit t = false then
        (⟨t.data.reverse⟩ : String)
      else t := by
  rw [fix_rtl_token]
  by_cases h1 : has_arabic_letter t = true
  · by_cases h2 : has_any_digit t = false
    · rw [if_pos (show (has_arabic_letter t && !has_any_digit t) = true by rw [h1, h2]; rfl),
        if_pos ⟨h1, h2⟩]
    · have h2t : has_any_digit t = true := by
        cases hv : has_any_digit t
        · exact absurd hv h2
        · rfl
      rw [if_neg (show ¬ (has_arabic_letter t && !has_any_digit t) = true by
            rw [h1, h2t]; simp),
        if_neg (by intro hc; exact h2 hc.2)]
  · have h1f : has_arabic_letter t = false := by
      cases hv : has_arabic_letter t
      · rfl
      · exact absurd hv h1
    rw [if_neg (show ¬ (has_arabic_letter t && !has_any_digit t) = true by rw [h1f]; simp),
      if_neg (by intro hc; exact h1 hc.1)]

theorem fix_rtl_token_invol (t : String) : fix_rtl_token (fix_rtl_token t) = t := by
  have hpres1 : has_arabic_letter (⟨t.data.reverse⟩ : String) = has_arabic_letter t := by
    simp [has_arabic_letter, hasCharIn, List.any_reverse]
  have hpres2 : has_any_digit (⟨t.data.reverse⟩ : String) = has_any_digit t := by
    simp [has_any_digit, hasCharIn, List.any_reverse]
  rw [fix_rtl_token_eq t]
  by_cases h : has_arabic_letter t = true ∧ has_any_digit t = false
  · rw [if_pos h, fix_rtl_token_eq, hpres1, hpres2, if_pos h]
    show (⟨t.data.reverse.reverse⟩ : String) = t
    rw [List.reverse_reverse]
  · rw [if_neg h, fix_rtl_token_eq, if_neg h]

theorem mem_cellPartsAux (rtl : Bool) (prev : Tok) (toks : List Tok) (t : Tok)
    (h : t ∈ toks) : fix_rtl_token t.text ∈ cellPartsAux rtl prev toks := by
  induction toks generalizing prev with
  | nil => cases h
  | cons a as ih =>
    rcases List.mem_cons.mp h with rfl | hmem
    · exact List.mem_cons_of_mem _ (List.mem_cons_self _ _)
    · exact List.mem_cons_of_mem _ (List.mem_cons_of_mem _ (ih a hmem))

theorem mem_cellParts (rtl : Bool) (toks : List Tok) (t : Tok) (h : t ∈ toks) :
    fix_rtl_token t.text ∈ cellParts rtl toks := by
  cases toks with
  | nil => cases h
  | cons a as =>
    rcases List.mem_cons.mp h with rfl | hmem
    · exact List.mem_cons_self _ _
    · exact List.mem_cons_of_mem _ (mem_cellPartsAux rtl a as t hmem)

/-- Claim C10: `fix_rtl_token t` is the character-wise reversal of `t`
exactly when `t` contains an Arabic-block letter and no digit, and is `t`
unchanged otherwise; `fix_rtl_token` is an involution; every token entering
a cell contributes its `fix_rtl_token` image to the assembled parts, and a
single Arabic letter-only word is stored in its `words_to_table` cell with
its characters in reversed order. -/
theorem fix_rtl_token_spec :
    (∀ t : String, fix_rtl_token t =
        if has_arabic_letter t = true ∧ has_any_digit t = false
        then (⟨t.data.reverse⟩ : String) else t) ∧
    (∀ t : String, fix_rtl_token (fix_rtl_token t) = t) ∧
    (∀ (rtl : Bool) (toks : List Tok) (t : Tok), t ∈ toks →
        fix_rtl_token t.text ∈ cellParts rtl toks) ∧
    (words_to_table [c10word] [0, 50] 8).1 =
      [[(⟨(pyStrip c10word.text).data.reverse⟩ : String)]] := by
  refine ⟨fix_rtl_token_eq, fix_rtl_token_invol, mem_cellParts, ?_⟩
  have hR : (⟨(pyStrip c10word.text).data.reverse⟩ : String) = "ابحرم" := by decide
  rw [hR]
  have hc1 : cellTextOf [{ text := "مرحبا", x := 25, x0 := 10, x1 := 40 }] = "ابحرم" := by
    decide
  have hs1 : pyStrip "مرحبا" = "مرحبا" := by decide
  have hne : pyStrip "ابحرم" ≠ "" := by decide
  norm_num [words_to_table, c10word, sortBy, insertSorted, wordKeyLe, round1,
    roundHalfEven, groupRows, groupRowsAux, buildRow, colTokens, assignTok, findCol,
    rowBoundsOf, hc1, hs1, hne, List.range, List.range.loop,
    List.replicate, List.getD, List.get?, List.set]

/-- Witness for `fix_rtl_token_spec` at a concrete Arabic token. -/
theorem fix_rtl_token_spec_witness :
    ({ text := "مرحبا", x := 25, x0 := 10, x1 := 40 } : Tok) ∈
        [({ text := "مرحبا", x := 25, x0 := 10, x1 := 40 } : Tok)] ∧
    fix_rtl_token ({ text := "مرحبا", x := 25, x0 := 10, x1 := 40 } : Tok).text ∈
      cellParts true [({ text := "مرحبا", x := 25, x0 := 10, x1 := 40 } : Tok)] :=
  ⟨List.mem_singleton.mpr rfl,
   fix_rtl_token_spec.2.2.1 true _ _ (List.mem_singleton.mpr rfl)⟩

/-! ## Claim C3: order and length preservation of `translate_batch` -/

theorem translateChunksFuel_map (gen gen2 : String → String) (bs : ℕ) (hbs : 0 < bs) :
    ∀ (fuel : ℕ) (chunks : List String), chunks.length ≤ fuel →
      translateChunksFuel gen gen2 bs fuel chunks = chunks.map (processOne gen gen2) := by
  intro fuel
  induction fuel with
  | zero =>
    intro chunks h
    rw [Nat.le_zero, List.length_eq_zero] at h
    rw [h]
    rfl
  | succ fuel ih =>
    intro chunks h
    cases chunks with
    | nil => rfl
    | cons c rest =>
      rw [translateChunksFuel, ih ((c :: rest).drop bs)
        (by rw [List.length_drop]; simp at h ⊢; omega),
        ← List.map_append, List.take_append_drop]

theorem lookupIdx_mem_nodup (i : ℕ) (v : String) :
    ∀ (m : List (ℕ × String)), (m.map Prod.fst).Nodup → (i, v) ∈ m →
      lookupIdx i m = some v := by
  intro m
  induction m with
  | nil => intro _ h; cases h
  | cons p rest ih =>
    intro hnd hmem
    obtain ⟨k, v0⟩ := p
    rw [List.map_cons, List.nodup_cons] at hnd
    rcases List.mem_cons.mp hmem with heq | hmem2
    · injection heq with h1 h2
      subst h1; subst h2
      rw [lookupIdx, if_pos rfl]
    · by_cases hk : k = i
      · rw [hk] at hnd
        exact absurd (List.mem_map.mpr ⟨(i, v), hmem2, rfl⟩) hnd.1
      · rw [lookupIdx, if_neg hk]
        exact ih hnd.2 hmem2

theorem segOK_append (gen gen2 : String → String) (L : List String) (start : ℕ)
    (a b : List String) (h : SegOK gen gen2 L start (a ++ b)) :
    SegOK gen gen2 L start a ∧ SegOK gen gen2 L (start + a.length) b := by
  constructor
  · intro j hj
    have h2 := h j (by rw [List.length_append]; omega)
    rwa [List.getD_append _ _ _ _ hj] at h2
  · intro j hj
    have h2 := h (a.length + j) (by rw [List.length_append]; omega)
    rw [show start + (a.length + j) = start + a.length + j by omega] at h2
    rwa [List.getD_append_right _ _ _ _ (Nat.le_add_right _ _),
      Nat.add_sub_cancel_left] at h2

theorem segOK_map (gen gen2 : String → String) (flat : List String) :
    SegOK gen gen2 (flat.map (processOne gen gen2)) 0 flat := by
  intro j hj
  rw [Nat.zero_add, List.getD_eq_getElem?_getD, List.getElem?_map,
    List.getElem?_eq_getElem hj]
  show processOne gen gen2 flat[j] = processOne gen gen2 (flat.getD j "")
  rw [List.getD_eq_getElem _ _ hj]

theorem mkTokOps_render (gen gen2 : String → String) (L : List String) :
    ∀ (toks : List String) (start : ℕ),
      SegOK gen gen2 L start (mkTokOps toks start).2 →
      (mkTokOps toks start).1.map (renderTok L) =
        toks.map fun tok =>
          if hasArabicFull tok then processOne gen gen2 tok else tok := by
  intro toks
  induction toks with
  | nil => intro start _; rfl
  | cons t ts ih =>
    intro start h
    by_cases ha : hasArabicFull t = true
    · have hfst : (mkTokOps (t :: ts) start).1 =
          TokOp.ref start :: (mkTokOps ts (start + 1)).1 := by
        rw [mkTokOps, if_pos ha]
      have hsnd : (mkTokOps (t :: ts) start).2 = t :: (mkTokOps ts (start + 1)).2 := by
        rw [mkTokOps, if_pos ha]
      rw [hsnd] at h
      have h0 := h 0 (Nat.succ_pos _)
      rw [Nat.add_zero] at h0
      have htail : SegOK gen gen2 L (start + 1) (mkTokOps ts (start + 1)).2 := by
        intro j hj
        have h2 := h (j + 1) (by simpa using Nat.succ_lt_succ hj)
        rwa [show start + (j + 1) = start + 1 + j by omega] at h2
      rw [hfst, List.map_cons, List.map_cons, if_pos ha, ih (start + 1) htail]
      rw [show (renderTok L (TokOp.ref start)) = L.getD start "" from rfl, h0]
      rfl
    · have hfst : (mkTokOps (t :: ts) start).1 =
          TokOp.const t :: (mkTokOps ts start).1 := by
        rw [mkTokOps, if_neg ha]
      have hsnd : (mkTokOps (t :: ts) start).2 = (mkTokOps ts start).2 := by
        rw [mkTokOps, if_neg ha]
      rw [hsnd] at h
      rw [hfst, List.map_cons, List.map_cons, if_neg ha, ih start h]
      rfl

theorem mkLineOps_render (gen gen2 : String → String) (L : List String) :
    ∀ (ls : List String) (start : ℕ),
      SegOK gen gen2 L start (mkLineOps ls start).2 →
      (mkLineOps ls start).1.map (renderLine L) =
        ls.map fun line =>
          if pyStrip line = "" then ""
          else String.join ((lineTokens line).map fun tok =>
            if hasArabicFull tok then processOne gen gen2 tok else tok) := by
  intro ls
  induction ls with
  | nil => intro start _; rfl
  | cons l ls ih =>
    intro start h
    by_cases hb : pyStrip l = ""
    · have hfst : (mkLineOps (l :: ls) start).1 =
          LineOp.const "" :: (mkLineOps ls start).1 := by
        rw [mkLineOps, if_pos hb]
      have hsnd : (mkLineOps (l :: ls) start).2 = (mkLineOps ls start).2 := by
        rw [mkLineOps, if_pos hb]
      rw [hsnd] at h
      rw [hfst, List.map_cons, List.map_cons, if_pos hb, ih start h]
      rfl
    · have hfst : (mkLineOps (l :: ls) start).1 =
          LineOp.segs (mkTokOps (lineTokens l) start).1 ::
            (mkLineOps ls (start + (mkTokOps (lineTokens l) start).2.length)).1 := by
        rw [mkLineOps, if_neg hb]
      have hsnd : (mkLineOps (l :: ls) start).2 =
          (mkTokOps (lineTokens l) start).2 ++
            (mkLineOps ls (start + (mkTokOps (lineTokens l) start).2.length)).2 := by
        rw [mkLineOps, if_neg hb]
      rw [hsnd] at h
      obtain ⟨h1, h2⟩ := segOK_append _ _ _ _ _ _ h
      rw [hfst, List.map_cons, List.map_cons, if_neg hb, ih _ h2]
      rw [show renderLine L (LineOp.segs (mkTokOps (lineTokens l) start).1) =
        String.join ((mkTokOps (lineTokens l) start).1.map (renderTok L)) from rfl]
      rw [mkTokOps_render gen gen2 L (lineTokens l) start h1]

theorem mkTextOp_render (gen gen2 : String → String) (L : List String) (t : String)
    (start : ℕ) (h : SegOK gen gen2 L start (mkTextOp t start).2) :
    renderText L (mkTextOp t start).1 = translateOne gen gen2 t := by
  by_cases h1 : t = "" ∨ pyStrip t = ""
  · rw [mkTextOp, if_pos h1, translateOne, if_pos h1]
    rfl
  · by_cases h2 : ¬ hasArabicFull t
    · rw [mkTextOp, if_neg h1, if_pos h2, translateOne, if_neg h1, if_pos h2]
      rfl
    · by_cases h3 : pureNumeric t = true
      · rw [mkTextOp, if_neg h1, if_neg h2, if_pos h3,
          translateOne, if_neg h1, if_neg h2, if_pos h3]
        rfl
      · by_cases h4 : ¬ is_translatable t
        · rw [mkTextOp, if_neg h1, if_neg h2, if_neg h3, if_pos h4,
            translateOne, if_neg h1, if_neg h2, if_neg h3, if_pos h4]
          rfl
        · have hfst : (mkTextOp t start).1 =
              TextOp.rebuild
                (mkLineOps (splitLines (collapseSpaceTab (pyStrip t))) start).1 := by
            rw [mkTextOp, if_neg h1, if_neg h2, if_neg h3, if_neg h4]
          have hsnd : (mkTextOp t start).2 =
              (mkLineOps (splitLines (collapseSpaceTab (pyStrip t))) start).2 := by
            rw [mkTextOp, if_neg h1, if_neg h2, if_neg h3, if_neg h4]
          rw [hsnd] at h
          rw [hfst, translateOne, if_neg h1, if_neg h2, if_neg h3, if_neg h4]
          rw [show renderText L (TextOp.rebuild
              (mkLineOps (splitLines (collapseSpaceTab (pyStrip t))) start).1) =
            String.intercalate "\n"
              ((mkLineOps (splitLines (collapseSpaceTab (pyStrip t))) start).1.map
                (renderLine L)) from rfl]
          rw [mkLineOps_render gen gen2 L _ start h]

theorem mkOpsAux_render (gen gen2 : String → String) (L : List String) :
    ∀ (ts : List String) (start : ℕ),
      SegOK gen gen2 L start (mkOpsAux ts start).2 →
      (mkOpsAux ts start).1.map (renderText L) = ts.map (translateOne gen gen2) := by
  intro ts
  induction ts with
  | nil => intro start _; rfl
  | cons t ts ih =>
    intro start h
    have hfst : (mkOpsAux (t :: ts) start).1 =
        (mkTextOp t start).1 :: (mkOpsAux ts (start + (mkTextOp t start).2.length)).1 := by
      rw [mkOpsAux]
    have hsnd : (mkOpsAux (t :: ts) start).2 =
        (mkTextOp t start).2 ++
          (mkOpsAux ts (start + (mkTextOp t start).2.length)).2 := by
      rw [mkOpsAux]
    rw [hsnd] at h
    obtain ⟨ha, hb⟩ := segOK_append _ _ _ _ _ _ h
    rw [hfst, List.map_cons, List.map_cons, mkTextOp_render gen gen2 L t start ha, ih _ hb]

theorem zipProc (gen gen2 : String → String) :
    ∀ (l : List (ℕ × String)),
      (l.map Prod.fst).zip ((l.map Prod.snd).map (processOne gen gen2)) =
        l.map fun p => (p.1, processOne gen gen2 p.2) := by
  intro l
  induction l with
  | nil => rfl
  | cons p rest ih => simp only [List.map_cons, List.zip_cons_cons, ih]

theorem translate_batch_eq (gen gen2 : String → String) (texts : List String)
    (bs : ℕ) (hbs : 0 < bs) :
    translate_batch gen gen2 texts bs = texts.map (translateOne gen gen2) := by
  by_cases ht : texts = []
  · rw [ht]; rfl
  · rw [translate_batch, if_neg ht]
    show ((mkOps texts).1.map (renderText
        ((List.range (mkOps texts).2.length).map fun i =>
          (lookupIdx i (((sortBy lenLe (mkOps texts).2.enum).map Prod.fst).zip
            (translateChunks gen gen2 bs
              ((sortBy lenLe (mkOps texts).2.enum).map Prod.snd)))).getD ""))) =
      texts.map (translateOne gen gen2)
    set flat := (mkOps texts).2 with hflat
    set sp := sortBy lenLe flat.enum with hsp
    have hperm : List.Perm sp flat.enum := sortBy_perm lenLe flat.enum
    have hchunks : translateChunks gen gen2 bs (sp.map Prod.snd) =
        (sp.map Prod.snd).map (processOne gen gen2) := by
      rw [translateChunks]
      exact translateChunksFuel_map gen gen2 bs hbs _ _ le_rfl
    rw [hchunks, zipProc]
    have hnodup : ((sp.map fun p => (p.1, processOne gen gen2 p.2)).map Prod.fst).Nodup := by
      have he : (sp.map fun p => (p.1, processOne gen gen2 p.2)).map Prod.fst =
          sp.map Prod.fst := by
        rw [List.map_map]
        rfl
      rw [he]
      have hp2 : List.Perm (sp.map Prod.fst) (flat.enum.map Prod.fst) := hperm.map _
      rw [List.enum_map_fst] at hp2
      exact hp2.nodup_iff.mpr (List.nodup_range _)
    have hlook : ∀ i, i < flat.length →
        lookupIdx i (sp.map fun p => (p.1, processOne gen gen2 p.2)) =
          some (processOne gen gen2 (flat.getD i "")) := by
      intro i hi
      apply lookupIdx_mem_nodup _ _ _ hnodup
      apply List.mem_map.mpr
      refine ⟨(i, flat.getD i ""), ?_, rfl⟩
      apply hperm.mem_iff.mpr
      have hlen : i < flat.enum.length := by rw [List.enum_length]; exact hi
      have hev : flat.enum[i] = (i, flat[i]) := List.getElem_enum _ _ _
      rw [List.getD_eq_getElem _ _ hi, ← hev]
      exact List.getElem_mem _
    have htr : ((List.range flat.length).map fun i =>
        (lookupIdx i (sp.map fun p => (p.1, processOne gen gen2 p.2))).getD "") =
        flat.map (processOne gen gen2) := by
      apply List.ext_getElem
      · simp
      · intro i h1 h2
        have hi : i < flat.length := by simpa using h1
        rw [List.getElem_map, List.getElem_map, List.getElem_range, hlook i hi,
          Option.getD_some, List.getD_eq_getElem _ _ hi]
    rw [htr]
    exact mkOpsAux_render gen gen2 _ texts 0 (segOK_map gen gen2 flat)

/-- Claim C3: for every input list and positive batch size, `translate_batch`
returns exactly one output per input, and the i-th output is the rendering
of the i-th input (`translateOne`), so output order matches input order
despite the internal length-sorting, batching, and index scatter. -/
theorem translate_batch_order (gen gen2 : String → String) (texts : List String)
    (bs : ℕ) (hbs : 0 < bs) :
    (translate_batch gen gen2 texts bs).length = texts.length ∧
    translate_batch gen gen2 texts bs = texts.map (translateOne gen gen2) := by
  refine ⟨?_, translate_batch_eq gen gen2 texts bs hbs⟩
  rw [translate_batch_eq gen gen2 texts bs hbs, List.length_map]

/-- Witness for `translate_batch_order` at a concrete two-element input. -/
theorem translate_batch_order_witness :
    0 < 16 ∧
    ((translate_batch genX genX ["abc", "مرحبا"] 16).length =
        (["abc", "مرحبا"] : List String).length ∧
      translate_batch genX genX ["abc", "مرحبا"] 16 =
        (["abc", "مرحبا"] : List String).map (translateOne genX genX)) :=
  ⟨by decide, translate_batch_order genX genX ["abc", "مرحبا"] 16 (by decide)⟩

/-! ## Claims C1 and C4: the numeric fast path and non-Arabic passthrough -/

theorem numericClassChar_not_space (c : Char) (h : numericClassChar c = true) :
    pyIsSpace c = false := by
  rw [← Bool.not_eq_true]
  intro hs
  simp only [pyIsSpace, Bool.or_eq_true, decide_eq_true_eq] at hs
  simp only [numericClassChar, pyIsDigit, Bool.or_eq_true, Bool.and_eq_true,
    decide_eq_true_eq] at h
  rcases h with
    (((((((((((h | h) | ((h | h) | h)) | h) | h) | h) | h) | h) | h) | h) | h) | h)
  · omega
  · omega
  · omega
  · omega
  · omega
  all_goals (subst h; exact absurd hs (by decide))

theorem stripChars_ne_nil (l : List Char) (c : Char) (hc : c ∈ l)
    (hns : pyIsSpace c = false) : stripChars l ≠ [] := by
  intro he
  rw [stripChars, List.reverse_eq_nil_iff, List.dropWhile_eq_nil_iff] at he
  have h1 : ∀ x ∈ l.dropWhile pyIsSpace, pyIsSpace x = true := by
    intro x hx
    exact he _ (List.mem_reverse.mpr hx)
  have h2 : ∀ x ∈ l, pyIsSpace x = true := by
    intro x hx
    rw [← List.takeWhile_append_dropWhile pyIsSpace l] at hx
    rcases List.mem_append.mp hx with h3 | h3
    · exact List.mem_takeWhile_imp h3
    · exact h1 x h3
  rw [h2 c hc] at hns
  cases hns

theorem pureNumeric_strip_ne (t : String) (h : pureNumeric t = true) :
    pyStrip t ≠ "" := by
  rw [pureNumeric] at h
  simp only [Bool.and_eq_true, Bool.not_eq_true', List.isEmpty_eq_false,
    List.all_eq_true] at h
  obtain ⟨hne, hall⟩ := h
  obtain ⟨c, hc⟩ := List.exists_mem_of_ne_nil _ hne
  intro he
  have hdata : stripChars t.data = [] := congrArg String.data he
  exact stripChars_ne_nil t.data c (List.mem_of_mem_filter hc)
    (numericClassChar_not_space c (hall c hc)) hdata

theorem translitChar_eq_self (c : Char) (h : arabicFullChar c = false) :
    translitChar c = c := by
  unfold translitChar
  split <;> first | rfl | exact absurd h (by decide)

theorem translitText_id (t : String) (h : hasArabicFull t = false) :
    translitText t = t := by
  have hall : ∀ c ∈ t.data, arabicFullChar c = false := by
    intro c hc
    by_contra hcc
    rw [Bool.not_eq_false] at hcc
    have ht : hasArabicFull t = true := by
      rw [hasArabicFull, hasCharIn, List.any_eq_true]
      exact ⟨c, hc, hcc⟩
    rw [ht] at h
    cases h
  show (⟨t.data.map translitChar⟩ : String) = t
  have hm : t.data.map translitChar = t.data.map id :=
    List.map_congr_left fun a ha => translitChar_eq_self a (hall a ha)
  rw [List.map_id] at hm
  rw [hm]

theorem translateOne_numeric (gen gen2 : String → String) (t : String)
    (h : pureNumeric t = true) :
    translateOne gen gen2 t = translitText t ∧ textSegments t = [] := by
  have hne : ¬ (t = "" ∨ pyStrip t = "") := by
    rintro (rfl | hc)
    · exact pureNumeric_strip_ne "" h rfl
    · exact pureNumeric_strip_ne t h hc
  constructor
  · by_cases h2 : ¬ hasArabicFull t
    · rw [translateOne, if_neg hne, if_pos h2]
      exact (translitText_id t (Bool.eq_false_iff.mpr h2)).symm
    · rw [translateOne, if_neg hne, if_neg h2, if_pos h]
  · rw [textSegments]
    by_cases h2 : ¬ hasArabicFull t
    · rw [mkTextOp, if_neg hne, if_pos h2]
    · rw [mkTextOp, if_neg hne, if_neg h2, if_pos h]

set_option maxRecDepth 8000 in
/-- Claim C1 counterexample: the spec's example `"١٢٣٬٤٥٦"` separates its
digit groups with U+066C ARABIC THOUSANDS SEPARATOR, which is not in the
fast-path character class, so the string is not classified as pure numeric:
it is sent to the model as a segment and the output is the model's answer,
not `"123,456"`. -/
theorem translate_batch_numeric_ce :
    pureNumeric numSep066C = false ∧
    textSegments numSep066C = [numSep066C] ∧
    translate_batch genX genX [numSep066C] 16 ≠ ["123,456"] := by
  decide

/-- Claim C1 (amended): an input element whose text, after removing
whitespace, consists only of the fast-path digit/punctuation class (which
includes `.` `,` `(` `)` `-` `+` `%` `[` `]` and ASCII, Arabic-Indic and
Persian digits, but not U+066C) is returned at its position as the
character-for-character transliteration of the input, and contributes no
segment to the model batch. -/
theorem translate_batch_numeric (gen gen2 : String → String) (texts : List String)
    (bs i : ℕ) (hbs : 0 < bs) (hi : i < texts.length)
    (hn : pureNumeric (texts.getD i "") = true) :
    (translate_batch gen gen2 texts bs).getD i "" = translitText (texts.getD i "") ∧
    textSegments (texts.getD i "") = [] := by
  obtain ⟨h1, h2⟩ := translateOne_numeric gen gen2 (texts.getD i "") hn
  refine ⟨?_, h2⟩
  rw [translate_batch_eq gen gen2 texts bs hbs,
    List.getD_eq_getElem?_getD, List.getElem?_map, List.getElem?_eq_getElem hi]
  show translateOne gen gen2 texts[i] = translitText (texts.getD i "")
  rw [List.getD_eq_getElem _ _ hi] at h1
  rw [List.getD_eq_getElem _ _ hi]
  exact h1

/-- Witness for `translate_batch_numeric` at the comma-separated figure. -/
theorem translate_batch_numeric_witness :
    0 < 16 ∧ 0 < ([numSepComma] : List String).length ∧
    pureNumeric (([numSepComma] : List String).getD 0 "") = true ∧
    ((translate_batch genX genX [numSepComma] 16).getD 0 "" =
        translitText (([numSepComma] : List String).getD 0 "") ∧
      textSegments (([numSepComma] : List String).getD 0 "") = []) :=
  ⟨by decide, by decide, by decide,
   translate_batch_numeric genX genX [numSepComma] 16 0 (by decide) (by decide)
     (by decide)⟩

/-- Claim C4 counterexample: a whitespace-only string contains no Arabic
characters, yet `translate_batch` returns the empty string for it, not the
string itself. -/
theorem translate_batch_nonarabic_ce :
    hasArabicFull " " = false ∧ translate_batch genX genX [" "] 16 ≠ [" "] := by
  decide

/-- Claim C4 (amended): a string with no Arabic characters is returned
unchanged unless it strips to empty, in which case the empty string is
returned (so nonempty whitespace-only inputs are not returned unchanged). -/
theorem translate_batch_nonarabic (gen gen2 : String → String) (s : String)
    (bs : ℕ) (hbs : 0 < bs) (h : hasArabicFull s = false) :
    translate_batch gen gen2 [s] bs = [if pyStrip s = "" then "" else s] := by
  rw [translate_batch_eq gen gen2 [s] bs hbs]
  show [translateOne gen gen2 s] = [if pyStrip s = "" then "" else s]
  by_cases hp : pyStrip s = ""
  · rw [translateOne, if_pos (Or.inr hp), if_pos hp]
  · have hs : ¬ (s = "" ∨ pyStrip s = "") := by
      rintro (rfl | hc)
      · exact hp rfl
      · exact hp hc
    rw [translateOne, if_neg hs, if_pos (by rw [h]; exact Bool.false_ne_true), if_neg hp]

/-- Witness for `translate_batch_nonarabic` at a plain English string. -/
theorem translate_batch_nonarabic_witness :
    0 < 16 ∧ hasArabicFull "Hello" = false ∧
    translate_batch genX genX ["Hello"] 16 =
      [if pyStrip "Hello" = "" then "" else "Hello"] :=
  ⟨by decide, by decide,
   translate_batch_nonarabic genX genX "Hello" 16 (by decide) (by decide)⟩

/-! ## Claim C2: the cover mechanism is an overlay, not redaction -/

theorem applyOps_runs (ops : List PageOp) :
    ∀ (p : PageState), (∀ r, PageOp.redactArea r ∉ ops) →
      (applyOps p ops).runs = p.runs := by
  induction ops with
  | nil => intro p _; rfl
  | cons op rest ih =>
    intro p h
    cases op with
    | drawRectFill r =>
      show (applyOps (applyOp p (PageOp.drawRectFill r)) rest).runs = p.runs
      rw [ih _ fun r2 hr => h r2 (List.mem_cons_of_mem _ hr)]
      rfl
    | insertTextbox r t fs =>
      show (applyOps (applyOp p (PageOp.insertTextbox r t fs)) rest).runs = p.runs
      rw [ih _ fun r2 hr => h r2 (List.mem_cons_of_mem _ hr)]
      rfl
    | redactArea r => exact absurd (List.mem_cons_self _ _) (h r)

theorem resizeOps_no_redact (fit : Rect → String → ℚ → ℚ) (rect cover : Rect)
    (t : String) (floor : ℚ) :
    ∀ (fuel : ℕ) (size : ℚ) (r : Rect),
      PageOp.redactArea r ∉ resizeOps fit rect cover t floor fuel size := by
  intro fuel
  induction fuel with
  | zero => intro size r h; cases h
  | succ fuel ih =>
    intro size r h
    rw [resizeOps] at h
    by_cases hc : fit rect t size < 0 ∧ floor < size
    · rw [if_pos hc] at h
      rcases List.mem_cons.mp h with h1 | h1
      · cases h1
      · rcases List.mem_cons.mp h1 with h2 | h2
        · cases h2
        · exact ih _ r h2
    · rw [if_neg hc] at h
      cases h

theorem processCellOps_no_redact (tr : String → String)
    (fit : Rect → String → ℚ → ℚ) (cell : TableCell) (r : Rect) :
    PageOp.redactArea r ∉ (processCellOps tr fit cell).1 := by
  intro h
  rw [processCellOps] at h
  by_cases h1 : pyStrip cell.text = ""
  · rw [if_pos h1] at h
    cases h
  · rw [if_neg h1] at h
    by_cases h2 : ¬ hasArabic606 (pyStrip cell.text)
    · rw [if_pos h2] at h
      cases h
    · rw [if_neg h2] at h
      by_cases h3 :
          (if cellNumeric (normalize_arabic_numerals (pyStrip cell.text)) then
            normalize_arabic_numerals (pyStrip cell.text)
          else tr (normalize_arabic_numerals (pyStrip cell.text))) = ""
      · rw [if_pos h3] at h
        cases h
      · rw [if_neg h3] at h
        rcases List.mem_cons.mp h with hx | hx
        · cases hx
        · rcases List.mem_cons.mp hx with hy | hy
          · cases hy
          · by_cases h4 :
                fit cell.rect
                  (if cellNumeric (normalize_arabic_numerals (pyStrip cell.text)) then
                    normalize_arabic_numerals (pyStrip cell.text)
                  else tr (normalize_arabic_numerals (pyStrip cell.text))) 8 < 0
            · rw [if_pos h4] at hy
              exact resizeOps_no_redact _ _ _ _ _ _ _ r hy
            · rw [if_neg h4] at hy
              cases hy

theorem renderBlockOps_no_redact (fit : Rect → String → ℚ → ℚ) (b : Block)
    (translated : String) (r : Rect) :
    PageOp.redactArea r ∉ renderBlockOps fit b translated := by
  intro h
  rw [renderBlockOps] at h
  rcases List.mem_cons.mp h with hx | hx
  · cases hx
  · rcases List.mem_cons.mp hx with hy | hy
    · cases hy
    · by_cases h4 : fit b.bbox translated b.font_size < 0
      · rw [if_pos h4] at hy
        exact resizeOps_no_redact _ _ _ _ _ _ _ r hy
      · rw [if_neg h4] at hy
        cases hy

theorem doCell_runs (tr : String → String) (fit : Rect → String → ℚ → ℚ)
    (acc : PageState × Stats) (cell : TableCell) :
    (doCell tr fit acc cell).1.runs = acc.1.runs := by
  show (applyOps acc.1 (processCellOps tr fit cell).1).runs = acc.1.runs
  exact applyOps_runs _ acc.1 fun r => processCellOps_no_redact tr fit cell r

theorem foldl_doCell_runs (tr : String → String) (fit : Rect → String → ℚ → ℚ) :
    ∀ (cells : List TableCell) (acc : PageState × Stats),
      ((cells.foldl (doCell tr fit) acc).1).runs = acc.1.runs := by
  intro cells
  induction cells with
  | nil => intro acc; rfl
  | cons c rest ih =>
    intro acc
    rw [List.foldl_cons, ih (doCell tr fit acc c), doCell_runs]

theorem doTablePhase_runs (tr : String → String) (fit : Rect → String → ℚ → ℚ)
    (pg : PageData) (acc : PageState × Stats) :
    (doTablePhase tr fit pg acc).1.runs = acc.1.runs := by
  rw [doTablePhase]
  by_cases h : pg.tables = []
  · rw [if_pos h]
  · rw [if_neg h]
    exact foldl_doCell_runs tr fit _ acc

theorem doBlock_runs (tr : String → String) (fit : Rect → String → ℚ → ℚ)
    (acc : PageState × Stats) (b : Block) :
    (doBlock tr fit acc b).1.runs = acc.1.runs := by
  rw [doBlock]
  by_cases h1 : b.bbox.x1 - b.bbox.x0 < 5 ∨ b.bbox.y1 - b.bbox.y0 < 5
  · rw [if_pos h1]
  · rw [if_neg h1]
    by_cases h2 : tr (normalize_arabic_numerals b.text) ≠ "" ∧
        ¬ hasArabic606 (tr (normalize_arabic_numerals b.text))
    · rw [if_pos h2]
      exact applyOps_runs _ acc.1 fun r => renderBlockOps_no_redact fit b _ r
    · rw [if_neg h2]

theorem foldl_doBlock_runs (tr : String → String) (fit : Rect → String → ℚ → ℚ) :
    ∀ (blocks : List Block) (acc : PageState × Stats),
      ((blocks.foldl (doBlock tr fit) acc).1).runs = acc.1.runs := by
  intro blocks
  induction blocks with
  | nil => intro acc; rfl
  | cons b rest ih =>
    intro acc
    rw [List.foldl_cons, ih (doBlock tr fit acc b), doBlock_runs]

theorem foldPages_runs (tr : String → String) (fit : Rect → String → ℚ → ℚ) :
    ∀ (pgs : List PageData) (init : Stats × List PageState),
      ((pgs.foldl
        (fun acc pg =>
          let r1 := doTablePhase tr fit pg (pg.state, acc.1)
          let r2 := pg.blocks.foldl (doBlock tr fit) r1
          (r2.2, acc.2 ++ [r2.1]))
        init).2).map PageState.runs =
      init.2.map PageState.runs ++ pgs.map fun pg => pg.state.runs := by
  intro pgs
  induction pgs with
  | nil => intro init; rw [List.foldl_nil, List.map_nil, List.append_nil]
  | cons pg pgs ih =>
    intro init
    rw [List.foldl_cons, ih]
    have hr : ((pg.blocks.foldl (doBlock tr fit)
        (doTablePhase tr fit pg (pg.state, init.1))).1).runs = pg.state.runs := by
      rw [foldl_doBlock_runs, doTablePhase_runs]
    show (init.2 ++
      [(pg.blocks.foldl (doBlock tr fit) (doTablePhase tr fit pg (pg.state, init.1))).1]
      ).map PageState.runs ++ pgs.map (fun pg => pg.state.runs) =
      init.2.map PageState.runs ++ (pg.state.runs :: pgs.map fun pg => pg.state.runs)
    rw [List.map_append, List.map_cons, List.map_nil, List.append_assoc, hr]
    rfl

/-- Claim C2: the renderer never invokes the host's content-removing
redaction — every original text run of every page survives in the output
document, because the cover is an opaque overlay in the drawing layer only;
in particular, on a one-page document whose only block is the Arabic line
`"مرحبا"`, extraction on the output page still yields `"مرحبا"`.  This
refutes the requirement that the source script not be recoverable by text
extraction on the output. -/
theorem redaction_never_applied :
    (∀ (tr : String → String) (fit : Rect → String → ℚ → ℚ) (doc : List PageData),
      ((translate_pdf_inplace tr fit doc).2).map PageState.runs =
        doc.map fun pg => pg.state.runs) ∧
    "مرحبا" ∈ extractTexts
      (((translate_pdf_inplace genX fitAll helloDoc).2).getD 0
        { runs := [], inserted := [] }) := by
  have hgen : ∀ (tr : String → String) (fit : Rect → String → ℚ → ℚ)
      (doc : List PageData),
      ((translate_pdf_inplace tr fit doc).2).map PageState.runs =
        doc.map fun pg => pg.state.runs := by
    intro tr fit doc
    show ((doc.foldl
        (fun acc pg =>
          let r1 := doTablePhase tr fit pg (pg.state, acc.1)
          let r2 := pg.blocks.foldl (doBlock tr fit) r1
          (r2.2, acc.2 ++ [r2.1]))
        ([("pages_processed", StatVal.int doc.length),
          ("text_blocks_translated", StatVal.int 0),
          ("tables_translated", StatVal.int 0),
          ("full_translated_text", StatVal.strList [])], [])).2).map PageState.runs =
      doc.map fun pg => pg.state.runs
    rw [foldPages_runs]
    rfl
  refine ⟨hgen, ?_⟩
  have h2 := hgen genX fitAll helloDoc
  cases houtv : (translate_pdf_inplace genX fitAll helloDoc).2 with
  | nil =>
    rw [houtv] at h2
    cases h2
  | cons p rest =>
    rw [houtv, List.map_cons] at h2
    have hpruns : p.runs = [helloRun] := (List.cons_eq_cons.mp h2).1
    show "مرحبا" ∈ extractTexts p
    apply List.mem_append_left
    rw [hpruns]
    exact List.mem_singleton.mpr rfl

/-! ## Claim C9: the statistics dictionary -/

theorem statsGet_set_other (s : Stats) (k : String) (v : StatVal) (k2 : String)
    (h : k2 ≠ k) : statsGet (statsSet s k v) k2 = statsGet s k2 := by
  induction s with
  | nil =>
    show statsGet [(k, v)] k2 = none
    rw [statsGet, if_neg (fun hc => h hc.symm)]
    rfl
  | cons p rest ih =>
    obtain ⟨k0, v0⟩ := p
    rw [statsSet]
    by_cases h0 : k0 = k
    · rw [if_pos h0, statsGet, statsGet]
      by_cases h2 : k0 = k2
      · exact absurd (h2.symm.trans h0) h
      · rw [if_neg h2, if_neg h2]
    · rw [if_neg h0, statsGet, statsGet]
      by_cases h2 : k0 = k2
      · rw [if_pos h2, if_pos h2]
      · rw [if_neg h2, if_neg h2, ih]

theorem statsGet_set_same (s : Stats) (k : String) (v : StatVal) :
    statsGet (statsSet s k v) k = some v := by
  induction s with
  | nil => rw [statsSet, statsGet, if_pos rfl]
  | cons p rest ih =>
    obtain ⟨k0, v0⟩ := p
    rw [statsSet]
    by_cases h0 : k0 = k
    · rw [if_pos h0, statsGet, if_pos h0]
    · rw [if_neg h0, statsGet, if_neg h0, ih]

theorem statsGet_append_other (s : Stats) (t k : String)
    (h : k ≠ "full_translated_text") :
    statsGet (statsAppendText s t) k = statsGet s k := by
  rw [statsAppendText]
  split
  · exact statsGet_set_other _ _ _ _ h
  · rfl

theorem statsGet_foldl_append (l : List String) :
    ∀ (s : Stats) (k : String), k ≠ "full_translated_text" →
      statsGet (l.foldl statsAppendText s) k = statsGet s k := by
  induction l with
  | nil => intro s k _; rfl
  | cons t rest ih =>
    intro s k h
    rw [List.foldl_cons, ih _ _ h, statsGet_append_other _ _ _ h]

theorem statsGet_doCell (tr : String → String) (fit : Rect → String → ℚ → ℚ)
    (acc : PageState × Stats) (cell : TableCell) (k : String)
    (h : k ≠ "full_translated_text") :
    statsGet (doCell tr fit acc cell).2 k = statsGet acc.2 k :=
  statsGet_foldl_append _ _ _ h

theorem statsGet_foldl_doCell (tr : String → String) (fit : Rect → String → ℚ → ℚ) :
    ∀ (cells : List TableCell) (acc : PageState × Stats) (k : String),
      k ≠ "full_translated_text" →
      statsGet ((cells.foldl (doCell tr fit) acc).2) k = statsGet acc.2 k := by
  intro cells
  induction cells with
  | nil => intro acc k _; rfl
  | cons c rest ih =>
    intro acc k h
    rw [List.foldl_cons, ih _ _ h, statsGet_doCell _ _ _ _ _ h]

theorem statsGet_doTablePhase_other (tr : String → String)
    (fit : Rect → String → ℚ → ℚ) (pg : PageData) (acc : PageState × Stats)
    (k : String) (h1 : k ≠ "full_translated_text") (h2 : k ≠ "tables_translated") :
    statsGet (doTablePhase tr fit pg acc).2 k = statsGet acc.2 k := by
  rw [doTablePhase]
  by_cases ht : pg.tables = []
  · rw [if_pos ht]
  · rw [if_neg ht]
    show statsGet (statsSet _ "tables_translated" _) k = _
    rw [statsGet_set_other _ _ _ _ h2, statsGet_foldl_doCell _ _ _ _ _ h1]

theorem statsGet_doTablePhase_tables (tr : String → String)
    (fit : Rect → String → ℚ → ℚ) (pg : PageData) (acc : PageState × Stats)
    (h : ∃ n, statsGet acc.2 "tables_translated" = some (StatVal.int n)) :
    ∃ n, statsGet (doTablePhase tr fit pg acc).2 "tables_translated" =
      some (StatVal.int n) := by
  rw [doTablePhase]
  by_cases ht : pg.tables = []
  · rw [if_pos ht]
    exact h
  · rw [if_neg ht]
    exact ⟨_, statsGet_set_same _ _ _⟩

theorem statsGet_doBlock_other (tr : String → String)
    (fit : Rect → String → ℚ → ℚ) (acc : PageState × Stats) (b : Block)
    (k : String) (h1 : k ≠ "full_translated_text")
    (h2 : k ≠ "text_blocks_translated") :
    statsGet (doBlock tr fit acc b).2 k = statsGet acc.2 k := by
  rw [doBlock]
  by_cases hc : b.bbox.x1 - b.bbox.x0 < 5 ∨ b.bbox.y1 - b.bbox.y0 < 5
  · rw [if_pos hc]
  · rw [if_neg hc]
    by_cases hd : tr (normalize_arabic_numerals b.text) ≠ "" ∧
        ¬ hasArabic606 (tr (normalize_arabic_numerals b.text))
    · rw [if_pos hd]
      show statsGet (statsSet _ "text_blocks_translated" _) k = _
      rw [statsGet_set_other _ _ _ _ h2, statsGet_append_other _ _ _ h1]
    · rw [if_neg hd]

theorem statsGet_doBlock_blocks (tr : String → String)
    (fit : Rect → String → ℚ → ℚ) (acc : PageState × Stats) (b : Block)
    (h : ∃ n, statsGet acc.2 "text_blocks_translated" = some (StatVal.int n)) :
    ∃ n, statsGet (doBlock tr fit acc b).2 "text_blocks_translated" =
      some (StatVal.int n) := by
  rw [doBlock]
  by_cases hc : b.bbox.x1 - b.bbox.x0 < 5 ∨ b.bbox.y1 - b.bbox.y0 < 5
  · rw [if_pos hc]
    exact h
  · rw [if_neg hc]
    by_cases hd : tr (normalize_arabic_numerals b.text) ≠ "" ∧
        ¬ hasArabic606 (tr (normalize_arabic_numerals b.text))
    · rw [if_pos hd]
      exact ⟨_, statsGet_set_same _ _ _⟩
    · rw [if_neg hd]
      exact h

theorem statsGet_foldl_doBlock_other (tr : String → String)
    (fit : Rect → String → ℚ → ℚ) :
    ∀ (blocks : List Block) (acc : PageState × Stats) (k : String),
      k ≠ "full_translated_text" → k ≠ "text_blocks_translated" →
      statsGet ((blocks.foldl (doBlock tr fit) acc).2) k = statsGet acc.2 k := by
  intro blocks
  induction blocks with
  | nil => intro acc k _ _; rfl
  | cons b rest ih =>
    intro acc k h1 h2
    rw [List.foldl_cons, ih _ _ h1 h2, statsGet_doBlock_other _ _ _ _ _ h1 h2]

theorem statsGet_foldl_doBlock_blocks (tr : String → String)
    (fit : Rect → String → ℚ → ℚ) :
    ∀ (blocks : List Block) (acc : PageState × Stats),
      (∃ n, statsGet acc.2 "text_blocks_translated" = some (StatVal.int n)) →
      ∃ n, statsGet ((blocks.foldl (doBlock tr fit) acc).2) "text_blocks_translated" =
        some (StatVal.int n) := by
  intro blocks
  induction blocks with
  | nil => intro acc h; exact h
  | cons b rest ih =>
    intro acc h
    rw [List.foldl_cons]
    exact ih _ (statsGet_doBlock_blocks _ _ _ _ h)

theorem statsGet_del_other (s : Stats) (k k2 : String) (h : k2 ≠ k) :
    statsGet (statsDel s k) k2 = statsGet s k2 := by
  induction s with
  | nil => rfl
  | cons p rest ih =>
    obtain ⟨k0, v0⟩ := p
    show statsGet (List.filter _ ((k0, v0) :: rest)) k2 = _
    rw [List.filter_cons]
    by_cases h0 : k0 = k
    · have : decide ((k0, v0).1 ≠ k) = false := by
        simp [h0]
      rw [this]
      simp only [Bool.false_eq_true, if_false]
      rw [statsGet, if_neg (fun hc => h (hc.symm.trans h0))]
      exact ih
    · have : decide ((k0, v0).1 ≠ k) = true := by
        simp [h0]
      rw [this]
      simp only [if_true]
      rw [statsGet, statsGet]
      by_cases h2 : k0 = k2
      · rw [if_pos h2, if_pos h2]
      · rw [if_neg h2, if_neg h2]
        exact ih

theorem statsGet_foldPages_other (tr : String → String)
    (fit : Rect → String → ℚ → ℚ) :
    ∀ (pgs : List PageData) (init : Stats × List PageState) (k : String),
      k ≠ "full_translated_text" → k ≠ "tables_translated" →
      k ≠ "text_blocks_translated" →
      statsGet ((pgs.foldl
        (fun acc pg =>
          let r1 := doTablePhase tr fit pg (pg.state, acc.1)
          let r2 := pg.blocks.foldl (doBlock tr fit) r1
          (r2.2, acc.2 ++ [r2.1]))
        init).1) k = statsGet init.1 k := by
  intro pgs
  induction pgs with
  | nil => intro init k _ _ _; rfl
  | cons pg pgs ih =>
    intro init k h1 h2 h3
    rw [List.foldl_cons, ih _ _ h1 h2 h3]
    show statsGet ((pg.blocks.foldl (doBlock tr fit)
        (doTablePhase tr fit pg (pg.state, init.1))).2) k = statsGet init.1 k
    rw [statsGet_foldl_doBlock_other _ _ _ _ _ h1 h3,
      statsGet_doTablePhase_other _ _ _ _ _ h1 h2]

theorem statsGet_foldPages_tables (tr : String → String)
    (fit : Rect → String → ℚ → ℚ) :
    ∀ (pgs : List PageData) (init : Stats × List PageState),
      (∃ n, statsGet init.1 "tables_translated" = some (StatVal.int n)) →
      ∃ n, statsGet ((pgs.foldl
        (fun acc pg =>
          let r1 := doTablePhase tr fit pg (pg.state, acc.1)
          let r2 := pg.blocks.foldl (doBlock tr fit) r1
          (r2.2, acc.2 ++ [r2.1]))
        init).1) "tables_translated" = some (StatVal.int n) := by
  intro pgs
  induction pgs with
  | nil => intro init h; exact h
  | cons pg pgs ih =>
    intro init h
    rw [List.foldl_cons]
    apply ih
    show ∃ n, statsGet ((pg.blocks.foldl (doBlock tr fit)
        (doTablePhase tr fit pg (pg.state, init.1))).2) "tables_translated" =
      some (StatVal.int n)
    rw [statsGet_foldl_doBlock_other _ _ _ _ _ (by decide) (by decide)]
    exact statsGet_doTablePhase_tables _ _ _ _ h

theorem statsGet_foldPages_blocks (tr : String → String)
    (fit : Rect → String → ℚ → ℚ) :
    ∀ (pgs : List PageData) (init : Stats × List PageState),
      (∃ n, statsGet init.1 "text_blocks_translated" = some (StatVal.int n)) →
      ∃ n, statsGet ((pgs.foldl
        (fun acc pg =>
          let r1 := doTablePhase tr fit pg (pg.state, acc.1)
          let r2 := pg.blocks.foldl (doBlock tr fit) r1
          (r2.2, acc.2 ++ [r2.1]))
        init).1) "text_blocks_translated" = some (StatVal.int n) := by
  intro pgs
  induction pgs with
  | nil => intro init h; exact h
  | cons pg pgs ih =>
    intro init h
    rw [List.foldl_cons]
    apply ih
    apply statsGet_foldl_doBlock_blocks
    show ∃ n, statsGet (doTablePhase tr fit pg (pg.state, init.1)).2
        "text_blocks_translated" = some (StatVal.int n)
    rw [statsGet_doTablePhase_other _ _ _ _ _ (by decide) (by decide)]
    exact h

theorem statsGet_finalize (s : Stats) (v : StatVal) (k : String)
    (h1 : k ≠ "full_translated_text") (h2 : k ≠ "full_text_content") :
    statsGet (statsDel (statsSet s "full_text_content" v) "full_translated_text") k =
      statsGet s k := by
  rw [statsGet_del_other _ _ _ h1, statsGet_set_other _ _ _ _ h2]

/-- For every document and every pair of oracles, the statistics dictionary
returned by `translate_pdf_inplace` has no `text_segments_translated` key at
all — the per-block counter is stored under `text_blocks_translated`
instead. -/
theorem stats_no_segments_key (tr : String → String) (fit : Rect → String → ℚ → ℚ)
    (doc : List PageData) :
    statsGet (translate_pdf_inplace tr fit doc).1 "text_segments_translated" =
      none := by
  refine (statsGet_finalize _ _ _ (by decide) (by decide)).trans ?_
  rw [statsGet_foldPages_other tr fit doc _ _ (by decide) (by decide) (by decide)]
  rfl

/-- Claim C9 counterexample: on the concrete one-block document the returned
statistics dictionary has no `text_segments_translated` key. -/
theorem stats_claim_ce :
    statsGet (translate_pdf_inplace genX fitAll helloDoc).1 "text_segments_translated" =
      none :=
  stats_no_segments_key genX fitAll helloDoc

/-- Claim C9 (amended): the statistics dictionary returned by
`translate_pdf_inplace` holds the integer field `pages_processed`, equal to
the number of pages, and integer fields `text_blocks_translated` and
`tables_translated` (the latter two named as in the code, not
`text_segments_translated` as the claim states). -/
theorem translate_pdf_stats (tr : String → String)
    (fit : Rect → String → ℚ → ℚ) (doc : List PageData) :
    statsGet (translate_pdf_inplace tr fit doc).1 "pages_processed" =
      some (StatVal.int doc.length) ∧
    (∃ n, statsGet (translate_pdf_inplace tr fit doc).1 "text_blocks_translated" =
      some (StatVal.int n)) ∧
    (∃ n, statsGet (translate_pdf_inplace tr fit doc).1 "tables_translated" =
      some (StatVal.int n)) := by
  refine ⟨?_, ?_, ?_⟩
  · refine (statsGet_finalize _ _ _ (by decide) (by decide)).trans ?_
    rw [statsGet_foldPages_other tr fit doc _ _ (by decide) (by decide) (by decide)]
    rfl
  · obtain ⟨n, hn⟩ := statsGet_foldPages_blocks tr fit doc
      (([("pages_processed", StatVal.int doc.length),
        ("text_blocks_translated", StatVal.int 0),
        ("tables_translated", StatVal.int 0),
        ("full_translated_text", StatVal.strList [])] : Stats),
       ([] : List PageState)) ⟨0, rfl⟩
    exact ⟨n, (statsGet_finalize _ _ _ (by decide) (by decide)).trans hn⟩
  · obtain ⟨n, hn⟩ := statsGet_foldPages_tables tr fit doc
      (([("pages_processed", StatVal.int doc.length),
        ("text_blocks_translated", StatVal.int 0),
        ("tables_translated", StatVal.int 0),
        ("full_translated_text", StatVal.strList [])] : Stats),
       ([] : List PageState)) ⟨0, rfl⟩
    exact ⟨n, (statsGet_finalize _ _ _ (by decide) (by decide)).trans hn⟩
